import Mathlib

/-
Verification of the fixed-window segment pipeline of
`src/tools/chunks/catchunks/pipeline-interests-fixed.cpp` (class
`PipelineInterestsFixed`), a shallow embedding of the handlers
`handleData`, `handleFail`, `fetchNextSegment`, `doRun` and `doCancel`
over an explicit pipeline state.

Modelling conventions, stated once here:

* `std::map<int, std::shared_ptr<...>>` members `hash_map` (commitment
  table) and `hash_data` (pending-verification cache) are association
  lists.  The C++ repeatedly evaluates `m.find(k)->second` without first
  comparing the iterator against `end()`; when the key is absent this
  dereferences the past-the-end iterator, an out-of-domain access.  The
  code then compares the fetched shared pointer against the null pointer
  (`!= 0`, `== 0`), i.e. it presupposes that an absent key reads as a
  null pointer.  The model adopts exactly that null-on-absent reading
  (`alookup` returning `Option`), and separately the predicate
  `handleDataUnguardedAccess` marks precisely the executions in which
  the C++ performs such an unguarded `find(k)->second` on an absent key.

* `ndn::Block::get(type)` returns the first sub-element of the given TLV
  type and throws when none exists; `handleData` therefore returns
  `Option`, with `none` for an execution that throws out of the handler.

* The base class `PipelineInterests` is not part of the sources; its
  members used here (`isStopping`, `onData`, `onFailure`,
  `getNextSegmentNo`, `allSegmentsReceived`, `cancel`) are modelled from
  the spec where indicated by `Modelled from the spec:` comments.

* Machine integers: segment numbers are `Nat` (they originate from
  `Name::Component::toSegment`, which is non-negative, and no claim
  involves values near an integer boundary); `memcmp` over the first
  `len` bytes of two byte strings is compared via `List.take`.
-/

namespace NdnCatchunks

/-- Byte strings (TLV values, signature values) as lists of byte values. -/
abbrev ByteStr := List Nat

/-- TLV type number of `tlv::SignatureValue`. -/
def tlvSignatureValue : Nat := 23

/-- One parsed TLV sub-element of a Data packet's Content
(`content.elements_begin()..elements_end()`). -/
structure TlvElement where
  typ : Nat
  value : ByteStr
deriving DecidableEq

/-- A received Data packet as `handleData` observes it: the segment number
taken from the name's last component, the parsed Content sub-elements, the
packet-level signature value (`data.getSignatureValue()`), and the
optional FinalBlockId (`data.getFinalBlock()`), already converted to a
segment number. -/
structure DataPkt where
  segmentNo : Nat
  contentElements : List TlvElement
  signatureValue : ByteStr
  finalBlock : Option Nat
deriving DecidableEq

/-- Resolution state of one `DataFetcher` (an external collaborator: the
Segment Fetch Task).  It resolves at most once, to success or permanent
failure, and can be cancelled. -/
inductive FetchStatus where
  | running
  | succeeded
  | failed
  | cancelled
deriving DecidableEq

/-- `DataFetcher::isRunning()`. -/
def FetchStatus.isRunning : FetchStatus → Bool
  | .running => true
  | _ => false

/-- `DataFetcher::hasError()`. -/
def FetchStatus.hasError : FetchStatus → Bool
  | .failed => true
  | _ => false

/-- `DataFetcher::cancel()`: stops a running fetcher; a fetcher that has
already resolved keeps its resolution. -/
def FetchStatus.cancel : FetchStatus → FetchStatus
  | .running => .cancelled
  | s => s

/-- One window slot of `m_segmentFetchers`: a possibly-null owning
reference to a fetcher, and the segment number the slot is bound to. -/
abbrev Slot := Option FetchStatus × Nat

/-- Events emitted to the orchestrator: `onData` (delivery of a verified
segment, identified by its segment number), `onFailure` (fatal error with
its reason string), and successful completion (`allSegmentsReceived`
followed by `printSummary`). -/
inductive Event where
  | deliver : Nat → Event
  | error : String → Event
  | complete : Event
deriving DecidableEq

/-- State of one `PipelineInterestsFixed` instance.  `delivered` and
`requested` are the (growing) logs of segment numbers passed to `onData`
and of segment numbers for which an Interest was issued; everything else
is a direct image of a C++ member of the same (un-prefixed) name. -/
structure PState where
  segmentFetchers : List Slot
  hash_map : List (Nat × ByteStr)
  hash_data : List (Nat × DataPkt)
  hasFinalBlockId : Bool
  lastSegmentNo : Nat
  hasFailure : Bool
  nextSegmentNo : Nat
  stopping : Bool
  delivered : List Nat
  requested : List Nat
deriving DecidableEq

/-- Lookup in an association list; models `m.find(k)->second` for the
shared-pointer-valued maps under the null-on-absent reading explained in
the file header (`none` = absent key = null pointer). -/
def alookup {α : Type} : List (Nat × α) → Nat → Option α
  | [], _ => none
  | (k', v) :: rest, k => if k' = k then some v else alookup rest k

/-- Models `m.erase(k)` on `std::map`. -/
def aerase {α : Type} (m : List (Nat × α)) (k : Nat) : List (Nat × α) :=
  m.filter (fun p => p.1 != k)

/-- Models `m.insert(std::pair(k, v))` on `std::map`: inserts only when
the key is not already present (no overwrite). -/
def mapInsertD {α : Type} (m : List (Nat × α)) (k : Nat) (v : α) : List (Nat × α) :=
  if (alookup m k).isSome then m else m ++ [(k, v)]

/-- Models `content.get(tlv::SignatureValue)` (lines 134 and 135): the
first Content sub-element of type SignatureValue; `none` when `get`
would throw `Block::Error`. -/
def contentSigValue? (elems : List TlvElement) : Option ByteStr :=
  (elems.find? (fun e => e.typ == tlvSignatureValue)).map TlvElement.value

/-- Models a nonzero result of `memcmp(a, b, len)`: the first `len` bytes
differ. -/
def memcmpNZ (a b : ByteStr) (len : Nat) : Bool :=
  a.take len != b.take len

/-- The comparison of the direct verification path (line 156):
`memcmp(data.getSignatureValue().value(), hash_block->value(),
data.getSignatureValue().value_size())` — the current response's
packet-level signature value against the predecessor's recorded
commitment `hb`. -/
def directMismatch (hb : ByteStr) (d : DataPkt) : Bool :=
  memcmpNZ d.signatureValue hb d.signatureValue.length

/-- The comparison of the pending-cache resolution path (line 135):
`memcmp(content.get(SignatureValue).value(), hash_block.value(),
data.getSignatureValue().value_size())` — the current (predecessor)
response's embedded content value against the cached successor's
embedded content value, over the length of the current packet's
signature. -/
def pendingMismatch (curEmbed cachedEmbed : ByteStr) (curSigLen : Nat) : Bool :=
  memcmpNZ curEmbed cachedEmbed curSigLen

/-- Modelled from the spec: the base-class `cancel` (the `{start,
cancel}` capability of §2/§4.1) combined with
`PipelineInterestsFixed::doCancel` (lines 104-113): the pipeline enters
its stopping state, every slot's fetcher is cancelled and the slot
vector is cleared; afterwards `isStopping()` holds, so no callback
produces further events (§5: "no further state mutation or callback
execution afterward"). -/
def cancelPipeline (s : PState) : PState :=
  { s with stopping := true, segmentFetchers := [] }

/-- The loop of `doCancel` (lines 107-110) in isolation: every non-null
fetcher is cancelled (before the vector holding them is cleared). -/
def cancelAllSlots (slots : List Slot) : List Slot :=
  slots.map fun p =>
    match p.1 with
    | none => p
    | some f => (some f.cancel, p.2)

/-- Modelled from the spec: the base-class `onFailure` (§7 propagation
policy: "all fatal conditions terminate the pipeline exactly once via a
single error event; the pipeline guarantees no further slot activity
after emitting it"): the pipeline is cancelled and a single error event
is emitted. -/
def onFailure (s : PState) (reason : String) : PState × List Event :=
  (cancelPipeline s, [Event.error reason])

/-- Modelled from the spec: `onData` hands a verified segment to the
caller (§6 emitted events); the model logs the delivered segment
number. -/
def deliverData (s : PState) (d : DataPkt) : PState × Event :=
  ({ s with delivered := s.delivered ++ [d.segmentNo] }, Event.deliver d.segmentNo)

/-- Modelled from the spec: `allSegmentsReceived` (§4.1: "If every
segment up to the final number has been delivered, the pipeline
completes successfully"). -/
def allSegmentsReceived (s : PState) : Bool :=
  s.hasFinalBlockId && (List.range (s.lastSegmentNo + 1)).all (fun i => s.delivered.contains i)

/-- The else branch of lines 141-148: record every SignatureValue
sub-element of the Content in the commitment table under the current
segment number (`std::map::insert`, so only the first such element per
key sticks). -/
def recordCommitments (m : List (Nat × ByteStr)) (n : Nat) (elems : List TlvElement) :
    List (Nat × ByteStr) :=
  elems.foldl (fun acc e => if e.typ == tlvSignatureValue then mapInsertD acc n e.value else acc) m

/-- Result of one stage of `handleData`: an early `return onFailure(...)`
(`fatal`), normal continuation with the events emitted so far (`next`),
or a thrown `Block::Error` (`abnormal`). -/
inductive StageRes where
  | abnormal : StageRes
  | fatal : PState → List Event → StageRes
  | next : PState → List Event → StageRes
deriving DecidableEq

/-- Lines 130-149 of `handleData`: if the pending-verification cache
holds an entry for `segment_no + 1`, compare the current response's
embedded content SignatureValue against the cached response's embedded
content SignatureValue; on mismatch fail fatally, on match erase the
cache entry and deliver the cached response.  Otherwise (else branch,
lines 141-148) record every SignatureValue sub-element of the current
Content in the commitment table under `segment_no`. -/
def stageA (s : PState) (d : DataPkt) : StageRes :=
  let n := d.segmentNo
  match alookup s.hash_data (n + 1) with
  | some cData =>
    match contentSigValue? cData.contentElements, contentSigValue? d.contentElements with
    | some hashBlock, some curEmbed =>
      if pendingMismatch curEmbed hashBlock d.signatureValue.length then
        let r := onFailure s "Failure hash key error"
        .fatal r.1 r.2
      else
        let s1 := { s with hash_data := aerase s.hash_data (n + 1) }
        let r := deliverData s1 cData
        .next r.1 [r.2]
    | _, _ => .abnormal
  | none =>
    .next { s with hash_map := recordCommitments s.hash_map n d.contentElements } []

/-- Lines 151-164 of `handleData`: for `segment_no != 0` look up the
predecessor's commitment; absent (null) means cache the current response
under its own segment number; present means compare the current
packet-level signature value against it, failing fatally on mismatch or
erasing the stale cache entry at `segment_no - 1` and delivering on
match.  Segment 0 is delivered unconditionally. -/
def stageC (s : PState) (d : DataPkt) : StageRes :=
  let n := d.segmentNo
  if n ≠ 0 then
    match alookup s.hash_map (n - 1) with
    | none =>
      .next { s with hash_data := mapInsertD s.hash_data n d } []
    | some hashBlock =>
      if directMismatch hashBlock d then
        let r := onFailure s "Failure hash key error"
        .fatal r.1 r.2
      else
        let s1 := { s with hash_data := aerase s.hash_data (n - 1) }
        let r := deliverData s1 d
        .next r.1 [r.2]
  else
    let r := deliverData s d
    .next r.1 [r.2]

/-- The loop of lines 171-183: walk the slots in order; a slot bound
beyond the newly known final segment number has its fetcher cancelled; a
slot within the bound whose fetcher has an error stops the walk (the
remaining slots are left untouched) and reports that segment number;
otherwise the walk continues. -/
def finalScan (last : Nat) : List Slot → List Slot × Option Nat
  | [] => ([], none)
  | p :: rest =>
    match p.1 with
    | none =>
      let r := finalScan last rest
      (p :: r.1, r.2)
    | some f =>
      if p.2 > last then
        let r := finalScan last rest
        ((some f.cancel, p.2) :: r.1, r.2)
      else if f.hasError then (p :: rest, some p.2)
      else
        let r := finalScan last rest
        (p :: r.1, r.2)

/-- Lines 167-184 of `handleData`: on the first response carrying a
FinalBlockId, latch the final segment number and re-evaluate every slot
(`finalScan`); an errored fetcher within the bound is fatal
("Failure retrieving segment #N"). -/
def stageFinal (s : PState) (d : DataPkt) : StageRes :=
  if s.hasFinalBlockId then .next s []
  else
    match d.finalBlock with
    | none => .next s []
    | some last =>
      let s1 := { s with hasFinalBlockId := true, lastSegmentNo := last }
      let r := finalScan last s1.segmentFetchers
      match r.2 with
      | some errSeg =>
        let s2 := { s1 with segmentFetchers := r.1 }
        let r2 := onFailure s2 ("Failure retrieving segment #" ++ toString errSeg)
        .fatal r2.1 r2.2
      | none => .next { s1 with segmentFetchers := r.1 } []

/-- Lines 65-102, `fetchNextSegment(pipeNo)`: no work while stopping; a
latched `hasFailure` immediately reports the aggregate error; a known
final segment number bounds the next segment number ("no more work");
otherwise a new fetcher is issued for the next unrequested segment
number and bound to the slot.  Modelled from the spec:
`getNextSegmentNo()` yields the next unrequested segment number
(consecutive from 0), advanced when a request is issued. -/
def fetchNextSegment (s : PState) (pipeNo : Nat) : PState × List Event × Bool :=
  if s.stopping then (s, [], false)
  else if s.hasFailure then
    let r := onFailure s "Fetching terminated but no final segment number has been found"
    (r.1, r.2, false)
  else if s.hasFinalBlockId ∧ s.nextSegmentNo > s.lastSegmentNo then (s, [], false)
  else
    ({ s with
        segmentFetchers := s.segmentFetchers.set pipeNo (some .running, s.nextSegmentNo),
        nextSegmentNo := s.nextSegmentNo + 1,
        requested := s.requested ++ [s.nextSegmentNo] }, [], true)

/-- Lines 186-193 of `handleData`: completion check, otherwise refill the
freed slot. -/
def stageTail (s : PState) (pipeNo : Nat) : PState × List Event :=
  if allSegmentsReceived s then (s, [Event.complete])
  else
    let r := fetchNextSegment s pipeNo
    (r.1, r.2.1)

/-- Lines 115-194, `handleData(interest, data, pipeNo)`, composed from
its stages; `none` models an execution that throws out of the handler
(see the file header). -/
def handleData (s : PState) (d : DataPkt) (pipeNo : Nat) : Option (PState × List Event) :=
  if s.stopping then some (s, [])
  else
    match stageA s d with
    | .abnormal => none
    | .fatal s1 e1 => some (s1, e1)
    | .next s1 e1 =>
      match stageC s1 d with
      | .abnormal => none
      | .fatal s2 e2 => some (s2, e1 ++ e2)
      | .next s2 e2 =>
        match stageFinal s2 d with
        | .abnormal => none
        | .fatal s3 e3 => some (s3, e1 ++ e2 ++ e3)
        | .next s3 e3 =>
          let r := stageTail s3 pipeNo
          some (r.1, e1 ++ e2 ++ e3 ++ r.2)

/-- Marks the executions of `handleData` in which the C++ dereferences
`find(k)->second` on an absent key: the guard of line 130
(`hash_data.find(segment_no+1)->second` with `hash_data` non-empty but
the key absent) and the lookup of line 152
(`hash_map.find(segment_no-1)->second` with the key absent, reached
whenever the pending-cache block did not return early). -/
def handleDataUnguardedAccess (s : PState) (d : DataPkt) : Bool :=
  let n := d.segmentNo
  if s.stopping then false
  else
    (decide (s.hash_data.length ≠ 0) && (alookup s.hash_data (n + 1)).isNone)
    || (match stageA s d with
        | .next s1 _ => decide (n ≠ 0) && (alookup s1.hash_map (n - 1)).isNone
        | _ => false)

/-- Line 202's slot read in `handleFail`: the segment number the slot is
bound to. -/
def slotSegAt (s : PState) (pipeNo : Nat) : Nat :=
  (s.segmentFetchers.getD pipeNo (none, 0)).2

/-- The cancellation part of the loop at lines 207-218: every non-null
fetcher bound beyond the failed segment number is cancelled. -/
def cancelSlotsAbove (failSeg : Nat) (slots : List Slot) : List Slot :=
  slots.map fun p =>
    match p.1 with
    | none => p
    | some f => if p.2 > failSeg then (some f.cancel, p.2) else p

/-- The `areAllFetchersStopped` computation of the same loop, over the
slots as they were when the loop ran: a non-null fetcher at or below the
failed segment number must not be running. -/
def allFetchersStopped (failSeg : Nat) (slots : List Slot) : Bool :=
  slots.all fun p =>
    match p.1 with
    | none => true
    | some f => if p.2 > failSeg then true else !f.isRunning

/-- Lines 196-227, `handleFail(reason, pipeNo)`. -/
def handleFail (s : PState) (reason : String) (pipeNo : Nat) : PState × List Event :=
  if s.stopping then (s, [])
  else if s.hasFinalBlockId ∧ slotSegAt s pipeNo ≤ s.lastSegmentNo then
    onFailure s reason
  else if s.hasFinalBlockId then (s, [])
  else
    let failSeg := slotSegAt s pipeNo
    let slots' := cancelSlotsAbove failSeg s.segmentFetchers
    if allFetchersStopped failSeg s.segmentFetchers then
      onFailure { s with segmentFetchers := slots' }
        "Fetching terminated but no final segment number has been found"
    else
      ({ s with segmentFetchers := slots', hasFailure := true }, [])

/-- Lines 52-63, the `doRun` loop: request consecutive segments into
slots `0, 1, ...` until `maxPipelineSize` slots are filled or
`fetchNextSegment` reports no more work. -/
def doRunLoop (s : PState) (pipeNo remaining : Nat) : PState :=
  match remaining with
  | 0 => s
  | r + 1 =>
    let res := fetchNextSegment s pipeNo
    if res.2.2 then doRunLoop res.1 (pipeNo + 1) r else res.1

/-- The freshly constructed pipeline (constructor, lines 36-45):
`m_segmentFetchers` resized to the window size, empty maps, all flags
clear. -/
def initState (w : Nat) : PState :=
  { segmentFetchers := List.replicate w (none, 0)
    hash_map := []
    hash_data := []
    hasFinalBlockId := false
    lastSegmentNo := 0
    hasFailure := false
    nextSegmentNo := 0
    stopping := false
    delivered := []
    requested := [] }

/-- The pipeline right after `doRun`: window of size `w` filled with
fetchers for segments `0 .. w-1`. -/
def pipelineStart (w : Nat) : PState :=
  doRunLoop (initState w) 0 w

/-- One externally observable completion arriving at the pipeline: a
Data response for a slot, a permanent fetcher failure for a slot, or a
`cancel()` call. -/
inductive Op where
  | arrive : DataPkt → Nat → Op
  | fail : String → Nat → Op
  | cancelOp : Op
deriving DecidableEq

/-- One serialized completion (§5: completions are processed one at a
time on the controller's control flow). -/
def stepOp (s : PState) : Op → Option (PState × List Event)
  | .arrive d pipeNo => handleData s d pipeNo
  | .fail reason pipeNo => some (handleFail s reason pipeNo)
  | .cancelOp => some (cancelPipeline s, [])

/-- A run: a sequence of serialized completions, accumulating emitted
events; `none` as soon as one handler throws. -/
def runOps (s : PState) : List Op → Option (PState × List Event)
  | [] => some (s, [])
  | op :: ops =>
    (stepOp s op).bind fun r =>
      (runOps r.1 ops).map fun r2 => (r2.1, r.2 ++ r2.2)

/-- Segment numbers of the arrivals in a run, in order. -/
def arrivalSegs : List Op → List Nat
  | [] => []
  | .arrive d _ :: ops => d.segmentNo :: arrivalSegs ops
  | _ :: ops => arrivalSegs ops


/- ### Basic lemmas about the map model and fetcher states -/

theorem alookup_mem {α : Type} {m : List (Nat × α)} {k : Nat} {v : α}
    (h : alookup m k = some v) : (k, v) ∈ m := by
  induction m with
  | nil => simp [alookup] at h
  | cons p rest ih =>
    obtain ⟨k', v'⟩ := p
    by_cases hk : k' = k
    · subst hk
      simp [alookup] at h
      simp [h]
    · simp [alookup, hk] at h
      exact List.mem_cons_of_mem _ (ih h)

theorem alookup_append {α : Type} (m l : List (Nat × α)) (k : Nat) :
    alookup (m ++ l) k =
      match alookup m k with
      | some v => some v
      | none => alookup l k := by
  induction m with
  | nil => simp [alookup]
  | cons p rest ih =>
    by_cases hk : p.1 = k
    · simp [alookup, hk]
    · simp [alookup, hk, ih]

theorem alookup_mapInsertD_ne {α : Type} (m : List (Nat × α)) (k k' : Nat) (v : α)
    (h : k' ≠ k) : alookup (mapInsertD m k v) k' = alookup m k' := by
  unfold mapInsertD
  split
  · rfl
  · rw [alookup_append]
    cases hm : alookup m k' with
    | some w => simp
    | none => simp [alookup, Ne.symm h]

theorem alookup_recordCommitments_ne (elems : List TlvElement)
    (m : List (Nat × ByteStr)) (n k : Nat) (h : k ≠ n) :
    alookup (recordCommitments m n elems) k = alookup m k := by
  induction elems generalizing m with
  | nil => rfl
  | cons e rest ih =>
    unfold recordCommitments at ih ⊢
    simp only [List.foldl_cons]
    by_cases he : (e.typ == tlvSignatureValue) = true
    · rw [he]
      simp only [if_true]
      rw [ih, alookup_mapInsertD_ne m n k e.value h]
    · simp only [he]
      simp only [if_false, Bool.false_eq_true]
      exact ih m

theorem cancel_not_running (f : FetchStatus) : f.cancel.isRunning = false := by
  cases f <;> rfl

/- ### Handlers on a stopped pipeline are inert -/

theorem handleData_stopped (s : PState) (d : DataPkt) (pipeNo : Nat)
    (h : s.stopping = true) : handleData s d pipeNo = some (s, []) := by
  unfold handleData
  simp [h]

theorem handleFail_stopped (s : PState) (reason : String) (pipeNo : Nat)
    (h : s.stopping = true) : handleFail s reason pipeNo = (s, []) := by
  unfold handleFail
  simp [h]

theorem cancelPipeline_stopping (s : PState) : (cancelPipeline s).stopping = true := rfl

/- ### C10 -/

/-- C10: when a fetch task for segment `s` reports permanent failure while
the final segment number is already known and `s` exceeds it,
`handleFail` is a no-op: it returns the state unchanged and emits no
event (lines 196-227 fall through both conditionals). -/
theorem c10_fail_beyond_final_noop (s : PState) (reason : String) (pipeNo : Nat)
    (h1 : s.stopping = false) (h2 : s.hasFinalBlockId = true)
    (h3 : s.lastSegmentNo < slotSegAt s pipeNo) :
    handleFail s reason pipeNo = (s, []) := by
  unfold handleFail
  simp [h1, h2, Nat.not_le_of_lt h3]

/-- Witness for C10 at a concrete state: the slot is bound to segment 4,
the final segment number is 2, and the failure handler changes
nothing. -/
theorem c10_fail_beyond_final_noop_witness :
    handleFail
      { segmentFetchers := [(some .running, 4)], hash_map := [], hash_data := []
        hasFinalBlockId := true, lastSegmentNo := 2, hasFailure := false
        nextSegmentNo := 5, stopping := false, delivered := [], requested := [] }
      "could not retrieve segment" 0 =
    ({ segmentFetchers := [(some .running, 4)], hash_map := [], hash_data := []
       hasFinalBlockId := true, lastSegmentNo := 2, hasFailure := false
       nextSegmentNo := 5, stopping := false, delivered := [], requested := [] }, []) :=
  c10_fail_beyond_final_noop _ _ 0 rfl rfl (by decide)

/- ### C1: out-of-order arrival 2, 0, 1 -/

/-- Segment 0 of the C1 scenario: its Content embeds the commitment
`[11]`, which equals segment 1's packet signature value. -/
def c1d0 : DataPkt := ⟨0, [⟨tlvSignatureValue, [11]⟩], [10], none⟩

/-- Segment 1 of the C1 scenario: signature `[11]`, embedded commitment
`[12]` = segment 2's signature value. -/
def c1d1 : DataPkt := ⟨1, [⟨tlvSignatureValue, [12]⟩], [11], none⟩

/-- Segment 2 of the C1 scenario: final marker 2; every segment of the
chain verifies on both comparison paths. -/
def c1d2 : DataPkt := ⟨2, [⟨tlvSignatureValue, [12]⟩], [12], some 2⟩

/-- The C1 arrival order: segment 2, then 0, then 1, each on the slot
that requested it. -/
def c1ops : List Op := [Op.arrive c1d2 2, Op.arrive c1d0 0, Op.arrive c1d1 1]

/-- C1 counterexample: in the run where segments 0..2 all verify
successfully and segment 2 carries the final marker, arriving in order
2, 0, 1, the code delivers the segments in the order 0, 2, 1 — not in
the order 0, 1, 2 the claim states: when segment 1 arrives, the cached
segment 2 is resolved and delivered (line 139) before segment 1 itself
is delivered (line 160). -/
theorem c1_out_of_order_delivery_counterexample :
    (runOps (pipelineStart 3) c1ops).map (fun r => r.1.delivered) = some [0, 2, 1]
    ∧ [0, 2, 1] ≠ [0, 1, 2] := by
  exact ⟨by decide, by decide⟩

/-- C1 amended: for arrival order 2, 0, 1 the pipeline delivers exactly
k+1 = 3 segments and then completes, with segment 2 held in the pending
cache from its arrival until segment 1 arrives; the deliveries occur in
the order 0, 2, 1 (the cached successor is compared against the arriving
segment 1's embedded commitment and delivered immediately before
segment 1 itself), and in that resolving call segment 1's own commitment
is never recorded in the commitment table (the recording branch is the
else of the pending-resolution branch). -/
theorem c1_out_of_order_run_amended :
    (runOps (pipelineStart 3) c1ops).map (fun r => (r.1.delivered, r.2)) =
      some ([0, 2, 1],
        [Event.deliver 0, Event.deliver 2, Event.deliver 1, Event.complete])
    ∧ (runOps (pipelineStart 3) (c1ops.take 1)).map
        (fun r => (alookup r.1.hash_data 2, r.1.delivered)) = some (some c1d2, [])
    ∧ (runOps (pipelineStart 3) (c1ops.take 2)).map
        (fun r => ((alookup r.1.hash_data 2).isSome, r.1.delivered)) = some (true, [0])
    ∧ (runOps (pipelineStart 3) c1ops).map
        (fun r => ((alookup r.1.hash_data 2).isSome, (alookup r.1.hash_map 1).isSome)) =
      some (false, false)
    ∧ (runOps (pipelineStart 3) c1ops).map (fun r => allSegmentsReceived r.1) = some true := by
  refine ⟨by decide, by decide, by decide, by decide, by decide⟩

/- ### C2: the two verification paths compute different comparisons -/

/-- Segment 0 of the C2 scenario: embedded commitment `[1]`, equal to
segment 1's packet signature value but not to segment 1's embedded
content value. -/
def c2d0 : DataPkt := ⟨0, [⟨tlvSignatureValue, [1]⟩], [9], none⟩

/-- Segment 1 of the C2 scenario: packet signature `[1]` (matching the
predecessor's commitment), embedded content value `[2]` (not matching
it); final marker 1. -/
def c2d1 : DataPkt := ⟨1, [⟨tlvSignatureValue, [2]⟩], [1], some 1⟩

/-- C2: the two verification code paths do not compute the same
comparison function.  For the same predecessor commitment `[1]` and the
same segment-1 response: the direct path (line 156) compares the
response's packet-level signature value and accepts, while the
pending-cache path (line 135) compares the response's embedded
content-declared value and rejects.  Consequently the very same pair of
packets is fully delivered when arriving in order 0, 1 but aborts with
the integrity error when arriving in order 1, 0. -/
theorem c2_comparison_paths_differ :
    directMismatch [1] c2d1 = false
    ∧ pendingMismatch [1] [2] c2d0.signatureValue.length = true
    ∧ (runOps (pipelineStart 2) [Op.arrive c2d0 0, Op.arrive c2d1 1]).map
        (fun r => (r.1.delivered, r.2)) =
      some ([0, 1], [Event.deliver 0, Event.deliver 1, Event.complete])
    ∧ (runOps (pipelineStart 2) [Op.arrive c2d1 1, Op.arrive c2d0 0]).map
        (fun r => (r.1.delivered, r.2)) =
      some ([], [Event.error "Failure hash key error"]) := by
  refine ⟨by decide, by decide, by decide, by decide⟩

/- ### C3: the predecessor lookup is not presence-guarded -/

/-- The first response to arrive in the C3 scenario: segment 1, before
segment 0 has arrived, so the commitment table has no entry at key 0. -/
def c3d1 : DataPkt := ⟨1, [⟨tlvSignatureValue, [5]⟩], [4], none⟩

/-- C3: when segment 1 arrives first, the code reaches
`hash_map.find(segment_no - 1)->second` (line 152) with key 0 absent —
an unguarded out-of-domain access, marked by
`handleDataUnguardedAccess` — rather than a presence-tested lookup.
Under the code's own null-on-absent reading the response is then cached
under key 1 and held (no delivery, no error, pipeline not stopped), as
the first half of the claim states. -/
theorem c3_unguarded_predecessor_lookup :
    handleDataUnguardedAccess (pipelineStart 2) c3d1 = true
    ∧ (handleData (pipelineStart 2) c3d1 1).map
        (fun r => (r.2, (alookup r.1.hash_data 1).isSome, r.1.stopping)) =
      some ([], true, false) := by
  refine ⟨by decide, by decide⟩

/- ### C4 counterexample -/

/-- State for the C4 counterexample: failure latched (`hasFailure`),
final segment number still unknown; slot 0 holds an errored fetcher for
segment 5, slot 1 the running fetcher for segment 3; segments 0 and 1
are delivered, segment 2 is still outstanding, and the commitment table
holds segment 2's commitment `[7]` for segment 3. -/
def c4state : PState :=
  { segmentFetchers := [(some .failed, 5), (some .running, 3)]
    hash_map := [(2, [7])], hash_data := []
    hasFinalBlockId := false, lastSegmentNo := 0, hasFailure := true
    nextSegmentNo := 6, stopping := false, delivered := [0, 1]
    requested := [0, 1, 2, 3, 4, 5] }

/-- The success for segment 3 in the C4 counterexample: it verifies
against the recorded commitment and carries final marker 3. -/
def c4data : DataPkt := ⟨3, [⟨tlvSignatureValue, [8]⟩], [7], some 3⟩

/-- C4 counterexample: no errored slot's segment number is within the
discovered bound 3 (the only errored slot is bound to segment 5), yet
the success that discovers the final number still turns the latched
condition into a fatal error: after delivering segment 3 the refill path
reports the aggregate error because `fetchNextSegment` tests
`m_hasFailure` without regard to the now-known final segment number.
This falsifies the claim's "exactly when some errored slot's segment
number is within the discovered bound". -/
theorem c4_latched_failure_counterexample :
    (c4state.segmentFetchers.all fun p =>
      match p.1 with
      | none => true
      | some f => !(f.hasError && decide (p.2 ≤ 3))) = true
    ∧ (handleData c4state c4data 1).map (fun r => (r.2, r.1.stopping)) =
      some ([Event.deliver 3,
             Event.error "Fetching terminated but no final segment number has been found"],
            true) := by
  refine ⟨by decide, by decide⟩

/- ### C5 counterexample -/

/-- State for the C5 counterexample: failure latched, final segment
number known (0) and already exceeded by the next candidate (1). -/
def c5state : PState :=
  { segmentFetchers := [], hash_map := [], hash_data := []
    hasFinalBlockId := true, lastSegmentNo := 0, hasFailure := true
    nextSegmentNo := 1, stopping := false, delivered := [0], requested := [0] }

/-- C5 counterexample: with the final segment number known and the
candidate segment number exceeding it, but `hasFailure` latched, the
claim says the call returns "no more work" without reporting any error;
the code instead reports the aggregate error, because the `m_hasFailure`
test (line 71) precedes the final-block bound test (line 77) and does
not require the final segment number to be unknown. -/
theorem c5_latched_failure_counterexample :
    c5state.hasFinalBlockId = true
    ∧ c5state.lastSegmentNo < c5state.nextSegmentNo
    ∧ fetchNextSegment c5state 0 =
        (cancelPipeline c5state,
         [Event.error "Fetching terminated but no final segment number has been found"],
         false) := by
  refine ⟨by decide, by decide, by decide⟩

/- ### C8: cancellation -/

/-- C8: `cancel()` is safe in any state and idempotent: it cancels every
slot's fetcher (the `doCancel` loop, here `cancelAllSlots`) and clears
the slot array, and once the pipeline is cancelled any completion
callback that still arrives returns immediately with no event and no
state change. -/
theorem c8_cancel_idempotent_and_absorbing (s : PState) :
    cancelPipeline (cancelPipeline s) = cancelPipeline s
    ∧ (cancelPipeline s).segmentFetchers = []
    ∧ (cancelPipeline s).stopping = true
    ∧ (∀ p, p ∈ cancelAllSlots s.segmentFetchers → ∀ f, p.1 = some f → f.isRunning = false)
    ∧ (∀ d pipeNo, handleData (cancelPipeline s) d pipeNo = some (cancelPipeline s, []))
    ∧ (∀ reason pipeNo, handleFail (cancelPipeline s) reason pipeNo = (cancelPipeline s, [])) := by
  refine ⟨rfl, rfl, rfl, ?_, ?_, ?_⟩
  · intro p hp f hf
    unfold cancelAllSlots at hp
    rw [List.mem_map] at hp
    obtain ⟨⟨q1, q2⟩, hq, hpq⟩ := hp
    cases q1 with
    | none =>
      subst hpq
      simp at hf
    | some g =>
      subst hpq
      simp only [Option.some.injEq] at hf
      rw [← hf]
      exact cancel_not_running g
  · intro d pipeNo
    exact handleData_stopped _ _ _ rfl
  · intro reason pipeNo
    exact handleFail_stopped _ _ _ rfl

/-- Witness for C8 at the started two-slot pipeline. -/
theorem c8_cancel_witness :
    cancelPipeline (cancelPipeline (pipelineStart 2)) = cancelPipeline (pipelineStart 2)
    ∧ FetchStatus.isRunning .cancelled = false
    ∧ handleData (cancelPipeline (pipelineStart 2)) ⟨1, [], [], none⟩ 0 =
        some (cancelPipeline (pipelineStart 2), [])
    ∧ handleFail (cancelPipeline (pipelineStart 2)) "late failure" 1 =
        (cancelPipeline (pipelineStart 2), []) :=
  ⟨(c8_cancel_idempotent_and_absorbing (pipelineStart 2)).1,
   (c8_cancel_idempotent_and_absorbing (pipelineStart 2)).2.2.2.1
     (some .cancelled, 0) (by decide) .cancelled rfl,
   (c8_cancel_idempotent_and_absorbing (pipelineStart 2)).2.2.2.2.1 ⟨1, [], [], none⟩ 0,
   (c8_cancel_idempotent_and_absorbing (pipelineStart 2)).2.2.2.2.2 "late failure" 1⟩

/- ### C5 amended: the request-slot case analysis as the code has it -/

/-- C5 amended: `fetchNextSegment` issues a fetch task for the next
unrequested segment number except in exactly three cases: the pipeline
is stopping (no request, no error); `hasFailure` is latched — regardless
of whether the final segment number is known — in which case the
aggregate error is reported immediately; or, absent both, the final
segment number is known and the candidate exceeds it (no more work, no
error). -/
theorem c5_requestSlot_amended (s : PState) (pipeNo : Nat) :
    (s.stopping = true → fetchNextSegment s pipeNo = (s, [], false))
    ∧ (s.stopping = false → s.hasFailure = true →
        fetchNextSegment s pipeNo =
          (cancelPipeline s,
           [Event.error "Fetching terminated but no final segment number has been found"],
           false))
    ∧ (s.stopping = false → s.hasFailure = false → s.hasFinalBlockId = true →
        s.lastSegmentNo < s.nextSegmentNo → fetchNextSegment s pipeNo = (s, [], false))
    ∧ (s.stopping = false → s.hasFailure = false →
        ¬(s.hasFinalBlockId = true ∧ s.lastSegmentNo < s.nextSegmentNo) →
        fetchNextSegment s pipeNo =
          ({ s with
              segmentFetchers := s.segmentFetchers.set pipeNo (some .running, s.nextSegmentNo),
              nextSegmentNo := s.nextSegmentNo + 1,
              requested := s.requested ++ [s.nextSegmentNo] }, [], true)) := by
  refine ⟨?_, ?_, ?_, ?_⟩
  · intro h1
    simp [fetchNextSegment, h1]
  · intro h1 h2
    simp [fetchNextSegment, h1, h2, onFailure]
  · intro h1 h2 h3 h4
    simp [fetchNextSegment, h1, h2, h3, h4]
  · intro h1 h2 h3
    simp [fetchNextSegment, h1, h2, h3]

/-- Witness for C5 amended: with `hasFailure` latched and the final
segment number known and exceeded, the aggregate error is reported. -/
theorem c5_requestSlot_amended_witness :
    fetchNextSegment c5state 0 =
      (cancelPipeline c5state,
       [Event.error "Fetching terminated but no final segment number has been found"],
       false) :=
  (c5_requestSlot_amended c5state 0).2.1 rfl rfl

/- ### C4 amended: permanent-failure handling -/

theorem finalScan_error_iff (last : Nat) (l : List Slot) :
    (finalScan last l).2.isSome = true ↔
      ∃ p, p ∈ l ∧ ∃ f, p.1 = some f ∧ f.hasError = true ∧ p.2 ≤ last := by
  induction l with
  | nil => simp [finalScan]
  | cons p rest ih =>
    obtain ⟨p1, p2⟩ := p
    cases p1 with
    | none =>
      simp only [finalScan, List.mem_cons]
      constructor
      · intro h
        obtain ⟨q, hq, hf⟩ := ih.mp h
        exact ⟨q, Or.inr hq, hf⟩
      · intro ⟨q, hq, f, hf1, hf2, hf3⟩
        rcases hq with hq | hq
        · rw [hq] at hf1
          simp at hf1
        · exact ih.mpr ⟨q, hq, f, hf1, hf2, hf3⟩
    | some g =>
      by_cases hgt : p2 > last
      · simp only [finalScan, hgt, if_true, List.mem_cons]
        constructor
        · intro h
          obtain ⟨q, hq, hf⟩ := ih.mp h
          exact ⟨q, Or.inr hq, hf⟩
        · intro ⟨q, hq, f, hf1, hf2, hf3⟩
          rcases hq with hq | hq
          · rw [hq] at hf1 hf3
            simp only [Option.some.injEq] at hf1
            omega
          · exact ih.mpr ⟨q, hq, f, hf1, hf2, hf3⟩
      · by_cases herr : g.hasError = true
        · simp only [finalScan, hgt, if_false, herr, if_true]
          constructor
          · intro _
            exact ⟨(some g, p2), List.mem_cons_self _ _, g, rfl, herr, by omega⟩
          · intro _
            simp
        · simp only [finalScan, hgt, if_false, herr, List.mem_cons]
          constructor
          · intro h
            obtain ⟨q, hq, hf⟩ := ih.mp h
            exact ⟨q, Or.inr hq, hf⟩
          · intro ⟨q, hq, f, hf1, hf2, hf3⟩
            rcases hq with hq | hq
            · rw [hq] at hf1
              simp only [Option.some.injEq] at hf1
              rw [← hf1] at hf2
              exact absurd hf2 herr
            · exact ih.mpr ⟨q, hq, f, hf1, hf2, hf3⟩

theorem cancelSlotsAbove_not_running (failSeg : Nat) (l : List Slot) :
    ∀ p, p ∈ cancelSlotsAbove failSeg l → ∀ f, p.1 = some f → p.2 > failSeg →
      f.isRunning = false := by
  intro p hp f hf hgt
  unfold cancelSlotsAbove at hp
  rw [List.mem_map] at hp
  obtain ⟨⟨q1, q2⟩, hq, hpq⟩ := hp
  cases q1 with
  | none =>
    subst hpq
    simp at hf
  | some g =>
    by_cases h2 : q2 > failSeg
    · simp only [h2, if_true] at hpq
      subst hpq
      simp only [Option.some.injEq] at hf
      rw [← hf]
      exact cancel_not_running g
    · simp only [h2, if_false] at hpq
      subst hpq
      simp only at hgt
      exact absurd hgt h2

/-- C4 amended: on permanent failure of the task for segment `s` (the
number its slot is bound to): if the final segment number is known and
`s` is within it, the pipeline terminates with that error; if unknown,
every slot bound beyond `s` is cancelled, then — if no slot at or below
`s` is still running — the pipeline terminates fatally with the
content-end-never-located error, and otherwise `hasFailure` is latched
with no event and the remaining slots continue.  A later success that
discovers the final number makes the re-evaluation loop report a fatal
"Failure retrieving segment" error exactly when some errored slot's
segment number is within the discovered bound; however — this is the
amendment — even when no errored slot is within the bound, the latched
`hasFailure` makes the very next slot-refill attempt report the
aggregate error. -/
theorem c4_handleFail_amended (s : PState) (reason : String) (pipeNo : Nat)
    (hstop : s.stopping = false) :
    (s.hasFinalBlockId = true → slotSegAt s pipeNo ≤ s.lastSegmentNo →
        handleFail s reason pipeNo = (cancelPipeline s, [Event.error reason]))
    ∧ (s.hasFinalBlockId = false →
        allFetchersStopped (slotSegAt s pipeNo) s.segmentFetchers = true →
        handleFail s reason pipeNo =
          (cancelPipeline s,
           [Event.error "Fetching terminated but no final segment number has been found"]))
    ∧ (s.hasFinalBlockId = false →
        allFetchersStopped (slotSegAt s pipeNo) s.segmentFetchers = false →
        handleFail s reason pipeNo =
          ({ s with
              segmentFetchers := cancelSlotsAbove (slotSegAt s pipeNo) s.segmentFetchers,
              hasFailure := true }, [])
        ∧ ∀ p, p ∈ cancelSlotsAbove (slotSegAt s pipeNo) s.segmentFetchers →
            ∀ f, p.1 = some f → p.2 > slotSegAt s pipeNo → f.isRunning = false)
    ∧ (∀ last slots, (finalScan last slots).2.isSome = true ↔
        ∃ p, p ∈ slots ∧ ∃ f, p.1 = some f ∧ f.hasError = true ∧ p.2 ≤ last)
    ∧ (s.hasFailure = true →
        fetchNextSegment s pipeNo =
          (cancelPipeline s,
           [Event.error "Fetching terminated but no final segment number has been found"],
           false)) := by
  refine ⟨?_, ?_, ?_, finalScan_error_iff, ?_⟩
  · intro h1 h2
    simp [handleFail, onFailure, hstop, h1, h2]
  · intro h1 h2
    simp [handleFail, onFailure, cancelPipeline, hstop, h1, h2]
  · intro h1 h2
    refine ⟨?_, cancelSlotsAbove_not_running _ _⟩
    simp [handleFail, hstop, h1, h2]
  · intro h1
    simp [fetchNextSegment, onFailure, hstop, h1]

/-- State for the C4 amended witness: final number unknown, slot 0 bound
to segment 1 about to fail, slot 1 running for segment 2. -/
def c4wstate : PState :=
  { segmentFetchers := [(some .running, 1), (some .running, 2)]
    hash_map := [], hash_data := []
    hasFinalBlockId := false, lastSegmentNo := 0, hasFailure := false
    nextSegmentNo := 3, stopping := false, delivered := [], requested := [0, 1, 2] }

/-- State for the C4 amended witness, latched variant. -/
def c4lstate : PState :=
  { segmentFetchers := [(some .running, 1), (some .cancelled, 2)]
    hash_map := [], hash_data := []
    hasFinalBlockId := false, lastSegmentNo := 0, hasFailure := true
    nextSegmentNo := 3, stopping := false, delivered := [], requested := [0, 1, 2] }

/-- Witness for C4 amended: failing segment 1 while segment 0's slot...
in fact while slot 1 still runs latches `hasFailure` and cancels the
slot bound beyond 1; the errored-slot re-evaluation test is exercised on
a concrete slot list; and with `hasFailure` latched the next refill
attempt reports the aggregate error. -/
theorem c4_handleFail_amended_witness :
    handleFail c4wstate "segment timeout" 0 =
      ({ c4wstate with
          segmentFetchers := cancelSlotsAbove (slotSegAt c4wstate 0) c4wstate.segmentFetchers,
          hasFailure := true }, [])
    ∧ (finalScan 2 [((some FetchStatus.failed : Option FetchStatus), 1)]).2.isSome = true
    ∧ fetchNextSegment c4lstate 1 =
        (cancelPipeline c4lstate,
         [Event.error "Fetching terminated but no final segment number has been found"],
         false) :=
  ⟨((c4_handleFail_amended c4wstate "segment timeout" 0 rfl).2.2.1 rfl (by decide)).1,
   ((c4_handleFail_amended c4wstate "segment timeout" 0 rfl).2.2.2.1 2
      [((some FetchStatus.failed : Option FetchStatus), 1)]).mpr
     ⟨(some .failed, 1), by decide, .failed, rfl, rfl, by decide⟩,
   (c4_handleFail_amended c4lstate "unused" 1 rfl).2.2.2.2 rfl⟩

/- ### Stage case analyses, shared by the invariant proofs -/

theorem stageA_cases (s : PState) (d : DataPkt) :
    stageA s d = .abnormal
    ∨ stageA s d = .fatal (cancelPipeline s) [Event.error "Failure hash key error"]
    ∨ (stageA s d =
        .next { s with hash_map := recordCommitments s.hash_map d.segmentNo d.contentElements } []
        ∧ alookup s.hash_data (d.segmentNo + 1) = none)
    ∨ (∃ cData, alookup s.hash_data (d.segmentNo + 1) = some cData
        ∧ stageA s d = .next
            { s with hash_data := aerase s.hash_data (d.segmentNo + 1),
                     delivered := s.delivered ++ [cData.segmentNo] }
            [Event.deliver cData.segmentNo]) := by
  cases hA : alookup s.hash_data (d.segmentNo + 1) with
  | none =>
    right; right; left
    refine ⟨?_, rfl⟩
    simp [stageA, hA]
  | some cData =>
    cases hc : contentSigValue? cData.contentElements with
    | none =>
      left
      simp [stageA, hA, hc]
    | some hashBlock =>
      cases hd : contentSigValue? d.contentElements with
      | none =>
        left
        simp [stageA, hA, hc, hd]
      | some curEmbed =>
        by_cases hm : pendingMismatch curEmbed hashBlock d.signatureValue.length = true
        · right; left
          simp [stageA, hA, hc, hd, hm, onFailure]
        · right; right; right
          refine ⟨cData, rfl, ?_⟩
          simp [stageA, hA, hc, hd, hm, deliverData]

theorem stageC_cases (s : PState) (d : DataPkt) :
    (d.segmentNo = 0 ∧ stageC s d =
        .next { s with delivered := s.delivered ++ [d.segmentNo] } [Event.deliver d.segmentNo])
    ∨ (d.segmentNo ≠ 0 ∧ alookup s.hash_map (d.segmentNo - 1) = none
        ∧ stageC s d = .next { s with hash_data := mapInsertD s.hash_data d.segmentNo d } [])
    ∨ (d.segmentNo ≠ 0
        ∧ stageC s d = .fatal (cancelPipeline s) [Event.error "Failure hash key error"])
    ∨ (d.segmentNo ≠ 0 ∧ stageC s d =
        .next { s with hash_data := aerase s.hash_data (d.segmentNo - 1),
                       delivered := s.delivered ++ [d.segmentNo] } [Event.deliver d.segmentNo]) := by
  by_cases hn : d.segmentNo = 0
  · left
    refine ⟨hn, ?_⟩
    simp [stageC, hn, deliverData]
  · cases hl : alookup s.hash_map (d.segmentNo - 1) with
    | none =>
      right; left
      refine ⟨hn, rfl, ?_⟩
      simp [stageC, hn, hl]
    | some hashBlock =>
      by_cases hm : directMismatch hashBlock d = true
      · right; right; left
        refine ⟨hn, ?_⟩
        simp [stageC, hn, hl, hm, onFailure]
      · right; right; right
        refine ⟨hn, ?_⟩
        simp [stageC, hn, hl, hm, deliverData]

theorem stageFinal_cases (s : PState) (d : DataPkt) :
    stageFinal s d = .next s []
    ∨ (∃ (last : Nat) (errSeg : Nat), s.hasFinalBlockId = false ∧ d.finalBlock = some last
        ∧ stageFinal s d = .fatal
            { s with hasFinalBlockId := true, lastSegmentNo := last,
                     stopping := true, segmentFetchers := [] }
            [Event.error ("Failure retrieving segment #" ++ toString errSeg)])
    ∨ (∃ last, s.hasFinalBlockId = false ∧ d.finalBlock = some last
        ∧ (finalScan last s.segmentFetchers).2 = none
        ∧ stageFinal s d = .next
            { s with hasFinalBlockId := true, lastSegmentNo := last,
                     segmentFetchers := (finalScan last s.segmentFetchers).1 } []) := by
  by_cases hf : s.hasFinalBlockId = true
  · left
    simp [stageFinal, hf]
  · rw [Bool.not_eq_true] at hf
    cases hd : d.finalBlock with
    | none =>
      left
      simp [stageFinal, hf, hd]
    | some last =>
      cases he : (finalScan last s.segmentFetchers).2 with
      | some errSeg =>
        right; left
        refine ⟨last, errSeg, hf, rfl, ?_⟩
        simp [stageFinal, hf, hd, he, onFailure, cancelPipeline]
      | none =>
        right; right
        refine ⟨last, hf, rfl, he, ?_⟩
        simp [stageFinal, hf, hd, he]

theorem stageTail_cases (s : PState) (pipeNo : Nat) :
    stageTail s pipeNo = (s, [Event.complete])
    ∨ stageTail s pipeNo = (s, [])
    ∨ (s.hasFailure = true ∧ stageTail s pipeNo =
        (cancelPipeline s,
         [Event.error "Fetching terminated but no final segment number has been found"]))
    ∨ ((s.hasFinalBlockId = true → s.nextSegmentNo ≤ s.lastSegmentNo)
        ∧ stageTail s pipeNo =
          ({ s with
              segmentFetchers := s.segmentFetchers.set pipeNo (some .running, s.nextSegmentNo),
              nextSegmentNo := s.nextSegmentNo + 1,
              requested := s.requested ++ [s.nextSegmentNo] }, [])) := by
  by_cases hc : allSegmentsReceived s = true
  · left
    simp [stageTail, hc]
  · by_cases hstop : s.stopping = true
    · right; left
      simp [stageTail, hc, fetchNextSegment, hstop]
    · rw [Bool.not_eq_true] at hstop
      by_cases hfail : s.hasFailure = true
      · right; right; left
        exact ⟨hfail, by simp [stageTail, hc, fetchNextSegment, hstop, hfail, onFailure]⟩
      · rw [Bool.not_eq_true] at hfail
        by_cases hb : s.hasFinalBlockId = true ∧ s.lastSegmentNo < s.nextSegmentNo
        · right; left
          simp [stageTail, hc, fetchNextSegment, hstop, hfail, hb.1, hb.2]
        · right; right; right
          constructor
          · intro hf
            by_contra hle
            exact hb ⟨hf, by omega⟩
          · simp [stageTail, hc, fetchNextSegment, hstop, hfail, hb]

/-- Fields preserved by the verifier stages (A and C) on the
continuation path: everything except the two maps and the delivery
log. -/
abbrev SlotFrame (s t : PState) : Prop :=
  t.segmentFetchers = s.segmentFetchers ∧ t.hasFinalBlockId = s.hasFinalBlockId
  ∧ t.lastSegmentNo = s.lastSegmentNo ∧ t.hasFailure = s.hasFailure
  ∧ t.nextSegmentNo = s.nextSegmentNo ∧ t.stopping = s.stopping
  ∧ t.requested = s.requested

theorem slotFrame_refl (s : PState) : SlotFrame s s :=
  ⟨rfl, rfl, rfl, rfl, rfl, rfl, rfl⟩

theorem slotFrame_trans {s t u : PState} (h1 : SlotFrame s t) (h2 : SlotFrame t u) :
    SlotFrame s u := by
  obtain ⟨a1, a2, a3, a4, a5, a6, a7⟩ := h1
  obtain ⟨b1, b2, b3, b4, b5, b6, b7⟩ := h2
  exact ⟨b1.trans a1, b2.trans a2, b3.trans a3, b4.trans a4, b5.trans a5, b6.trans a6,
    b7.trans a7⟩

theorem stageA_next_frame {s : PState} {d : DataPkt} {s1 : PState} {e1 : List Event}
    (h : stageA s d = .next s1 e1) : SlotFrame s s1 := by
  rcases stageA_cases s d with hc | hc | ⟨hc, _⟩ | ⟨cData, _, hc⟩ <;> rw [hc] at h
  · cases h
  · cases h
  · injection h with h1 h2
    rw [← h1]
    exact ⟨rfl, rfl, rfl, rfl, rfl, rfl, rfl⟩
  · injection h with h1 h2
    rw [← h1]
    exact ⟨rfl, rfl, rfl, rfl, rfl, rfl, rfl⟩

theorem stageA_fatal_state {s : PState} {d : DataPkt} {s1 : PState} {e1 : List Event}
    (h : stageA s d = .fatal s1 e1) : s1 = cancelPipeline s := by
  rcases stageA_cases s d with hc | hc | ⟨hc, _⟩ | ⟨cData, _, hc⟩ <;> rw [hc] at h
  · cases h
  · injection h with h1 h2
    exact h1.symm
  · cases h
  · cases h

theorem stageC_next_frame {s : PState} {d : DataPkt} {s1 : PState} {e1 : List Event}
    (h : stageC s d = .next s1 e1) : SlotFrame s s1 := by
  rcases stageC_cases s d with ⟨_, hc⟩ | ⟨_, _, hc⟩ | ⟨_, hc⟩ | ⟨_, hc⟩ <;> rw [hc] at h
  · injection h with h1 h2
    rw [← h1]
    exact ⟨rfl, rfl, rfl, rfl, rfl, rfl, rfl⟩
  · injection h with h1 h2
    rw [← h1]
    exact ⟨rfl, rfl, rfl, rfl, rfl, rfl, rfl⟩
  · cases h
  · injection h with h1 h2
    rw [← h1]
    exact ⟨rfl, rfl, rfl, rfl, rfl, rfl, rfl⟩

theorem stageC_fatal_state {s : PState} {d : DataPkt} {s1 : PState} {e1 : List Event}
    (h : stageC s d = .fatal s1 e1) : s1 = cancelPipeline s := by
  rcases stageC_cases s d with ⟨_, hc⟩ | ⟨_, _, hc⟩ | ⟨_, hc⟩ | ⟨_, hc⟩ <;> rw [hc] at h
  · cases h
  · cases h
  · injection h with h1 h2
    exact h1.symm
  · cases h

theorem handleFail_cases (s : PState) (reason : String) (pipeNo : Nat) :
    handleFail s reason pipeNo = (s, [])
    ∨ (∃ r, handleFail s reason pipeNo = (cancelPipeline s, [Event.error r]))
    ∨ (s.hasFinalBlockId = false ∧ handleFail s reason pipeNo =
        ({ s with segmentFetchers := cancelSlotsAbove (slotSegAt s pipeNo) s.segmentFetchers,
                  hasFailure := true }, [])) := by
  by_cases hstop : s.stopping = true
  · left
    exact handleFail_stopped s reason pipeNo hstop
  · rw [Bool.not_eq_true] at hstop
    by_cases h2 : s.hasFinalBlockId = true ∧ slotSegAt s pipeNo ≤ s.lastSegmentNo
    · right; left
      exact ⟨reason, by simp [handleFail, hstop, h2.1, h2.2, onFailure]⟩
    · by_cases hf : s.hasFinalBlockId = true
      · left
        have h3 : ¬ slotSegAt s pipeNo ≤ s.lastSegmentNo := fun hc => h2 ⟨hf, hc⟩
        simp [handleFail, hstop, hf, h3]
      · rw [Bool.not_eq_true] at hf
        by_cases hall : allFetchersStopped (slotSegAt s pipeNo) s.segmentFetchers = true
        · right; left
          refine ⟨"Fetching terminated but no final segment number has been found", ?_⟩
          simp [handleFail, hstop, hf, hall, onFailure, cancelPipeline]
        · right; right
          refine ⟨hf, ?_⟩
          simp [handleFail, hstop, hf, hall]

/- ### C6: the final-block latch and its consequences -/

/-- Per-slot form of the C6 invariant: the slot holds no running fetcher
bound beyond `last`. -/
def slotIdle (last : Nat) (p : Slot) : Bool :=
  match p.1 with
  | none => true
  | some f => !f.isRunning || decide (p.2 ≤ last)

/-- Claim-C6 invariant: once the final segment number is known, no slot
holds a running fetcher bound to a segment number beyond it. -/
def noActiveBeyondFinal (s : PState) : Bool :=
  !s.hasFinalBlockId || s.segmentFetchers.all (slotIdle s.lastSegmentNo)

theorem noActive_congr {s t : PState}
    (h1 : t.segmentFetchers = s.segmentFetchers)
    (h2 : t.hasFinalBlockId = s.hasFinalBlockId)
    (h3 : t.lastSegmentNo = s.lastSegmentNo) :
    noActiveBeyondFinal t = noActiveBeyondFinal s := by
  simp [noActiveBeyondFinal, h1, h2, h3]

theorem noActive_cancel (s : PState) : noActiveBeyondFinal (cancelPipeline s) = true := by
  simp [noActiveBeyondFinal, cancelPipeline]

theorem noActive_of_not_final {s : PState} (h : s.hasFinalBlockId = false) :
    noActiveBeyondFinal s = true := by
  simp [noActiveBeyondFinal, h]

theorem finalScan_none_idle (last : Nat) (l : List Slot)
    (h : (finalScan last l).2 = none) :
    (finalScan last l).1.all (slotIdle last) = true := by
  induction l with
  | nil => simp [finalScan]
  | cons p rest ih =>
    obtain ⟨p1, p2⟩ := p
    cases p1 with
    | none =>
      simp only [finalScan] at h ⊢
      rw [List.all_cons, Bool.and_eq_true]
      exact ⟨rfl, ih h⟩
    | some g =>
      by_cases hgt : p2 > last
      · simp only [finalScan, hgt, if_true] at h ⊢
        rw [List.all_cons, Bool.and_eq_true]
        refine ⟨?_, ih h⟩
        simp [slotIdle, cancel_not_running]
      · by_cases herr : g.hasError = true
        · simp only [finalScan, hgt, if_false, herr, if_true] at h
          cases h
        · simp only [finalScan, hgt, if_false, herr, Bool.false_eq_true] at h ⊢
          rw [List.all_cons, Bool.and_eq_true]
          refine ⟨?_, ih h⟩
          simp only [slotIdle, Bool.or_eq_true, decide_eq_true_eq]
          right
          omega

theorem all_set_of_all {α : Type} (p : α → Bool) (l : List α) (n : Nat) (v : α)
    (h : l.all p = true) (hv : p v = true) : (l.set n v).all p = true := by
  rw [List.all_eq_true] at h ⊢
  intro x hx
  rcases List.mem_or_eq_of_mem_set hx with h1 | h1
  · exact h x h1
  · rw [h1]
    exact hv

theorem stageTail_fields (t : PState) (pipeNo : Nat) :
    (stageTail t pipeNo).1.hasFinalBlockId = t.hasFinalBlockId
    ∧ (stageTail t pipeNo).1.lastSegmentNo = t.lastSegmentNo := by
  rcases stageTail_cases t pipeNo with h | h | ⟨_, h⟩ | ⟨_, h⟩ <;> rw [h] <;> exact ⟨rfl, rfl⟩

theorem stageTail_c6 (t : PState) (pipeNo : Nat) (hInv : noActiveBeyondFinal t = true) :
    noActiveBeyondFinal (stageTail t pipeNo).1 = true
    ∧ ∀ x ∈ (stageTail t pipeNo).1.requested,
        x ∈ t.requested ∨ (t.hasFinalBlockId = true → x ≤ t.lastSegmentNo) := by
  rcases stageTail_cases t pipeNo with h | h | ⟨_, h⟩ | ⟨hbound, h⟩ <;> rw [h]
  · exact ⟨hInv, fun x hx => Or.inl hx⟩
  · exact ⟨hInv, fun x hx => Or.inl hx⟩
  · refine ⟨noActive_cancel t, fun x hx => Or.inl ?_⟩
    exact hx
  · constructor
    · by_cases htf : t.hasFinalBlockId = true
      · have hall : t.segmentFetchers.all (slotIdle t.lastSegmentNo) = true := by
          simpa [noActiveBeyondFinal, htf] using hInv
        have hv : slotIdle t.lastSegmentNo ((some FetchStatus.running : Option FetchStatus),
            t.nextSegmentNo) = true := by
          simp [slotIdle, hbound htf]
        simpa [noActiveBeyondFinal, htf] using
          all_set_of_all (slotIdle t.lastSegmentNo) t.segmentFetchers pipeNo _ hall hv
      · rw [Bool.not_eq_true] at htf
        exact noActive_of_not_final htf
    · intro x hx
      have hx2 : x ∈ t.requested ++ [t.nextSegmentNo] := hx
      rw [List.mem_append] at hx2
      rcases hx2 with hx2 | hx2
      · exact Or.inl hx2
      · rw [List.mem_singleton] at hx2
        subst hx2
        exact Or.inr hbound



/-- Transport of the C6 conclusions to a cancelled pipeline whose
pre-cancellation state agrees with `s` on the slot-related fields. -/
theorem c6_concl_cancel (s x : PState) (hF : SlotFrame s x) :
    noActiveBeyondFinal (cancelPipeline x) = true
    ∧ (s.hasFinalBlockId = true → (cancelPipeline x).hasFinalBlockId = true
        ∧ (cancelPipeline x).lastSegmentNo = s.lastSegmentNo
        ∧ ∀ y ∈ (cancelPipeline x).requested, y ∈ s.requested ∨ y ≤ s.lastSegmentNo) := by
  obtain ⟨f1, f2, f3, f4, f5, f6, f7⟩ := hF
  refine ⟨noActive_cancel x, fun hf => ⟨?_, ?_, ?_⟩⟩
  · show x.hasFinalBlockId = true
    rw [f2]
    exact hf
  · show x.lastSegmentNo = s.lastSegmentNo
    exact f3
  · intro y hy
    left
    have hy2 : y ∈ x.requested := hy
    rw [f7] at hy2
    exact hy2

/-- Transport of the C6 conclusions through the tail stage applied to a
state agreeing with `s` on the slot-related fields. -/
theorem c6_concl_tail (s x : PState) (pipeNo : Nat) (hF : SlotFrame s x)
    (hInvx : noActiveBeyondFinal x = true) :
    noActiveBeyondFinal (stageTail x pipeNo).1 = true
    ∧ (s.hasFinalBlockId = true → (stageTail x pipeNo).1.hasFinalBlockId = true
        ∧ (stageTail x pipeNo).1.lastSegmentNo = s.lastSegmentNo
        ∧ ∀ y ∈ (stageTail x pipeNo).1.requested, y ∈ s.requested ∨ y ≤ s.lastSegmentNo) := by
  obtain ⟨f1, f2, f3, f4, f5, f6, f7⟩ := hF
  obtain ⟨t1, t2⟩ := stageTail_c6 x pipeNo hInvx
  obtain ⟨u1, u2⟩ := stageTail_fields x pipeNo
  refine ⟨t1, fun hf => ⟨?_, ?_, ?_⟩⟩
  · rw [u1, f2]
    exact hf
  · rw [u2, f3]
  · intro y hy
    rcases t2 y hy with hy1 | hy1
    · left
      rw [f7] at hy1
      exact hy1
    · right
      have hy2 : y ≤ x.lastSegmentNo := hy1 (by rw [f2]; exact hf)
      rw [f3] at hy2
      exact hy2

/-- Single-step preservation of the C6 invariant, with immutability of
the latched final segment number and the bound on newly requested
segment numbers. -/
theorem step_c6 {s : PState} {op : Op} {s' : PState} {evs : List Event}
    (h : stepOp s op = some (s', evs)) (hInv : noActiveBeyondFinal s = true) :
    noActiveBeyondFinal s' = true
    ∧ (s.hasFinalBlockId = true → s'.hasFinalBlockId = true
        ∧ s'.lastSegmentNo = s.lastSegmentNo
        ∧ ∀ x ∈ s'.requested, x ∈ s.requested ∨ x ≤ s.lastSegmentNo) := by
  cases op with
  | cancelOp =>
    simp only [stepOp, Option.some.injEq, Prod.mk.injEq] at h
    rw [← h.1]
    exact c6_concl_cancel s s (slotFrame_refl s)
  | fail reason pipeNo =>
    simp only [stepOp, Option.some.injEq] at h
    rcases handleFail_cases s reason pipeNo with hc | ⟨r, hc⟩ | ⟨hf, hc⟩ <;>
        rw [hc, Prod.mk.injEq] at h
    · rw [← h.1]
      exact ⟨hInv, fun hfin => ⟨hfin, rfl, fun x hx => Or.inl hx⟩⟩
    · rw [← h.1]
      exact c6_concl_cancel s s (slotFrame_refl s)
    · rw [← h.1]
      constructor
      · exact noActive_of_not_final hf
      · intro hfin
        rw [hfin] at hf
        cases hf
  | arrive d pipeNo =>
    simp only [stepOp] at h
    by_cases hstop : s.stopping = true
    · rw [handleData_stopped s d pipeNo hstop, Option.some.injEq, Prod.mk.injEq] at h
      rw [← h.1]
      exact ⟨hInv, fun hfin => ⟨hfin, rfl, fun x hx => Or.inl hx⟩⟩
    · rw [Bool.not_eq_true] at hstop
      cases hA : stageA s d with
      | abnormal =>
        simp only [handleData, hstop, Bool.false_eq_true, if_false, hA] at h
        cases h
      | fatal s1 e1 =>
        simp only [handleData, hstop, Bool.false_eq_true, if_false, hA,
          Option.some.injEq, Prod.mk.injEq] at h
        rw [← h.1, stageA_fatal_state hA]
        exact c6_concl_cancel s s (slotFrame_refl s)
      | next s1 e1 =>
        have hF1 := stageA_next_frame hA
        cases hC : stageC s1 d with
        | abnormal =>
          simp only [handleData, hstop, Bool.false_eq_true, if_false, hA, hC] at h
          cases h
        | fatal s2 e2 =>
          simp only [handleData, hstop, Bool.false_eq_true, if_false, hA, hC,
            Option.some.injEq, Prod.mk.injEq] at h
          rw [← h.1, stageC_fatal_state hC]
          exact c6_concl_cancel s s1 hF1
        | next s2 e2 =>
          have hF2 := slotFrame_trans hF1 (stageC_next_frame hC)
          rcases stageFinal_cases s2 d with hsf | ⟨last, errSeg, hfin, hfb, hsf⟩ |
              ⟨last, hfin, hfb, hsf1, hsf⟩
          · simp only [handleData, hstop, Bool.false_eq_true, if_false, hA, hC, hsf,
              Option.some.injEq, Prod.mk.injEq] at h
            rw [← h.1]
            have hInv2 : noActiveBeyondFinal s2 = true := by
              rw [noActive_congr hF2.1 hF2.2.1 hF2.2.2.1]
              exact hInv
            exact c6_concl_tail s s2 pipeNo hF2 hInv2
          · simp only [handleData, hstop, Bool.false_eq_true, if_false, hA, hC, hsf,
              Option.some.injEq, Prod.mk.injEq] at h
            rw [← h.1]
            constructor
            · simp [noActiveBeyondFinal]
            · intro hfin2
              have hx : s2.hasFinalBlockId = true := by
                rw [hF2.2.1]
                exact hfin2
              rw [hfin] at hx
              cases hx
          · simp only [handleData, hstop, Bool.false_eq_true, if_false, hA, hC, hsf,
              Option.some.injEq, Prod.mk.injEq] at h
            rw [← h.1]
            have hInv3 : noActiveBeyondFinal
                { s2 with hasFinalBlockId := true, lastSegmentNo := last,
                          segmentFetchers := (finalScan last s2.segmentFetchers).1 } = true := by
              simp [noActiveBeyondFinal, finalScan_none_idle last s2.segmentFetchers hsf1]
            constructor
            · exact (stageTail_c6 _ pipeNo hInv3).1
            · intro hfin2
              have hx : s2.hasFinalBlockId = true := by
                rw [hF2.2.1]
                exact hfin2
              rw [hfin] at hx
              cases hx

/-- First response with the marker wins: a `handleData` call that turns
`hasFinalBlockId` on latches exactly the arriving packet's FinalBlockId
value. -/
theorem handleData_first_wins {s : PState} {d : DataPkt} {pipeNo : Nat} {s' : PState}
    {evs : List Event} (hf0 : s.hasFinalBlockId = false)
    (h : handleData s d pipeNo = some (s', evs)) (hf1 : s'.hasFinalBlockId = true) :
    d.finalBlock = some s'.lastSegmentNo := by
  by_cases hstop : s.stopping = true
  · rw [handleData_stopped s d pipeNo hstop, Option.some.injEq, Prod.mk.injEq] at h
    rw [← h.1, hf0] at hf1
    cases hf1
  · rw [Bool.not_eq_true] at hstop
    cases hA : stageA s d with
    | abnormal =>
      simp only [handleData, hstop, Bool.false_eq_true, if_false, hA] at h
      cases h
    | fatal s1 e1 =>
      simp only [handleData, hstop, Bool.false_eq_true, if_false, hA,
        Option.some.injEq, Prod.mk.injEq] at h
      rw [← h.1, stageA_fatal_state hA] at hf1
      have hx : s.hasFinalBlockId = true := hf1
      rw [hf0] at hx
      cases hx
    | next s1 e1 =>
      have hF1 := stageA_next_frame hA
      cases hC : stageC s1 d with
      | abnormal =>
        simp only [handleData, hstop, Bool.false_eq_true, if_false, hA, hC] at h
        cases h
      | fatal s2 e2 =>
        simp only [handleData, hstop, Bool.false_eq_true, if_false, hA, hC,
          Option.some.injEq, Prod.mk.injEq] at h
        rw [← h.1, stageC_fatal_state hC] at hf1
        have hx : s1.hasFinalBlockId = true := hf1
        rw [hF1.2.1, hf0] at hx
        cases hx
      | next s2 e2 =>
        have hF2 := slotFrame_trans hF1 (stageC_next_frame hC)
        have hs2fin : s2.hasFinalBlockId = false := by
          rw [hF2.2.1]
          exact hf0
        rcases stageFinal_cases s2 d with hsf | ⟨last, errSeg, hfin, hfb, hsf⟩ |
            ⟨last, hfin, hfb, hsf1, hsf⟩
        · simp only [handleData, hstop, Bool.false_eq_true, if_false, hA, hC, hsf,
            Option.some.injEq, Prod.mk.injEq] at h
          rw [← h.1, (stageTail_fields s2 pipeNo).1, hs2fin] at hf1
          cases hf1
        · simp only [handleData, hstop, Bool.false_eq_true, if_false, hA, hC, hsf,
            Option.some.injEq, Prod.mk.injEq] at h
          rw [← h.1, hfb]
        · simp only [handleData, hstop, Bool.false_eq_true, if_false, hA, hC, hsf,
            Option.some.injEq, Prod.mk.injEq] at h
          rw [← h.1, hfb, (stageTail_fields _ pipeNo).2]

/-- Run-level closure of the C6 step lemma. -/
theorem runOps_c6 (ops : List Op) : ∀ (s s' : PState) (evs : List Event),
    runOps s ops = some (s', evs) → noActiveBeyondFinal s = true →
    noActiveBeyondFinal s' = true
    ∧ (s.hasFinalBlockId = true → s'.hasFinalBlockId = true
        ∧ s'.lastSegmentNo = s.lastSegmentNo
        ∧ ∀ x ∈ s'.requested, x ∈ s.requested ∨ x ≤ s.lastSegmentNo) := by
  induction ops with
  | nil =>
    intro s s' evs h hInv
    simp only [runOps, Option.some.injEq, Prod.mk.injEq] at h
    rw [← h.1]
    exact ⟨hInv, fun hf => ⟨hf, rfl, fun x hx => Or.inl hx⟩⟩
  | cons op ops ih =>
    intro s s' evs h hInv
    simp only [runOps] at h
    cases h1 : stepOp s op with
    | none =>
      rw [h1] at h
      cases h
    | some r =>
      obtain ⟨s1, e1⟩ := r
      rw [h1] at h
      simp only [Option.some_bind] at h
      cases h2 : runOps s1 ops with
      | none =>
        rw [h2] at h
        cases h
      | some r2 =>
        obtain ⟨s2, e2⟩ := r2
        rw [h2] at h
        simp only [Option.map_some', Option.some.injEq, Prod.mk.injEq] at h
        obtain ⟨hs, he⟩ := h
        have hstep := step_c6 h1 hInv
        have hrest := ih s1 s2 e2 h2 hstep.1
        rw [← hs]
        refine ⟨hrest.1, ?_⟩
        intro hf
        obtain ⟨a1, a2, a3⟩ := hstep.2 hf
        obtain ⟨b1, b2, b3⟩ := hrest.2 a1
        refine ⟨b1, by rw [b2, a2], ?_⟩
        intro x hx
        rcases b3 x hx with hx1 | hx1
        · exact a3 x hx1
        · right
          rw [a2] at hx1
          exact hx1

/-- C6: the final segment number is set at most once — the first
response carrying the marker wins (second conjunct) and from then on the
flag stays set, the value never changes, every segment number newly
requested is within the bound, and no slot ever holds a running fetcher
bound beyond the bound (invariant `noActiveBeyondFinal`, established at
discovery by the cancellation loop of lines 171-183 and preserved by
every subsequent completion). -/
theorem c6_final_block_latch :
    (∀ (ops : List Op) (s s' : PState) (evs : List Event),
        runOps s ops = some (s', evs) → noActiveBeyondFinal s = true →
        noActiveBeyondFinal s' = true
        ∧ (s.hasFinalBlockId = true → s'.hasFinalBlockId = true
            ∧ s'.lastSegmentNo = s.lastSegmentNo
            ∧ ∀ x ∈ s'.requested, x ∈ s.requested ∨ x ≤ s.lastSegmentNo))
    ∧ (∀ (s : PState) (d : DataPkt) (pipeNo : Nat) (s' : PState) (evs : List Event),
        s.hasFinalBlockId = false → handleData s d pipeNo = some (s', evs) →
        s'.hasFinalBlockId = true → d.finalBlock = some s'.lastSegmentNo) :=
  ⟨fun ops s s' evs h hInv => runOps_c6 ops s s' evs h hInv,
   fun _ _ _ _ _ hf0 h hf1 => handleData_first_wins hf0 h hf1⟩

/-- State for the C6 witness: final number 2 latched, one compliant
running fetcher. -/
def c6wstate : PState :=
  { segmentFetchers := [(some .running, 1)], hash_map := [], hash_data := []
    hasFinalBlockId := true, lastSegmentNo := 2, hasFailure := false
    nextSegmentNo := 3, stopping := false, delivered := [], requested := [0, 1, 2] }

/-- Witness for C6: running a cancel completion from a latched state
keeps the invariant and the latched value. -/
theorem c6_final_block_latch_witness :
    noActiveBeyondFinal (cancelPipeline c6wstate) = true
    ∧ (cancelPipeline c6wstate).lastSegmentNo = c6wstate.lastSegmentNo :=
  ⟨(c6_final_block_latch.1 [Op.cancelOp] c6wstate (cancelPipeline c6wstate) [] rfl
      (by decide)).1,
   ((c6_final_block_latch.1 [Op.cancelOp] c6wstate (cancelPipeline c6wstate) [] rfl
      (by decide)).2 rfl).2.1⟩

/- ### C9: at-most-once delivery and slot uniqueness -/

/-- Segment numbers of the slots currently holding a fetcher. -/
def activeSegs : List Slot → List Nat
  | [] => []
  | p :: rest =>
    match p.1 with
    | some _ => p.2 :: activeSegs rest
    | none => activeSegs rest

/-- Slot half of the C9 invariant: segment numbers bound to occupied
slots are pairwise distinct, and all below the next unrequested
number. -/
abbrev SlotsOk (s : PState) : Prop :=
  (activeSegs s.segmentFetchers).Nodup
  ∧ ∀ x ∈ activeSegs s.segmentFetchers, x < s.nextSegmentNo

/-- Delivery half of the C9 invariant, relative to the segment numbers
`arrived` whose responses the pipeline has processed so far: the
delivery log has no duplicates and only arrived segments; every
pending-cache entry stores the packet of its own key, an arrived key,
and one not yet delivered. -/
abbrev CacheOk (arrived : List Nat) (s : PState) : Prop :=
  s.delivered.Nodup
  ∧ (∀ x ∈ s.delivered, x ∈ arrived)
  ∧ (∀ p ∈ s.hash_data, p.2.segmentNo = p.1 ∧ p.1 ∈ arrived ∧ p.1 ∉ s.delivered)

theorem nodup_snoc {a : Nat} {l : List Nat} (h1 : l.Nodup) (h2 : a ∉ l) :
    (l ++ [a]).Nodup := by
  rw [List.nodup_append]
  refine ⟨h1, List.nodup_singleton a, ?_⟩
  intro x hx hxa
  rw [List.mem_singleton] at hxa
  rw [hxa] at hx
  exact h2 hx

theorem mem_aerase {α : Type} {m : List (Nat × α)} {k : Nat} {p : Nat × α}
    (h : p ∈ aerase m k) : p ∈ m ∧ p.1 ≠ k := by
  unfold aerase at h
  rw [List.mem_filter] at h
  refine ⟨h.1, ?_⟩
  have := h.2
  simpa using this

theorem mem_mapInsertD {α : Type} {m : List (Nat × α)} {k : Nat} {v : α} {p : Nat × α}
    (h : p ∈ mapInsertD m k v) : p ∈ m ∨ p = (k, v) := by
  unfold mapInsertD at h
  split at h
  · exact Or.inl h
  · rw [List.mem_append, List.mem_singleton] at h
    exact h

theorem cacheOk_mono {A B : List Nat} {s : PState} (h : CacheOk A s)
    (hAB : ∀ x ∈ A, x ∈ B) : CacheOk B s :=
  ⟨h.1, fun x hx => hAB x (h.2.1 x hx),
   fun p hp => ⟨(h.2.2 p hp).1, hAB _ (h.2.2 p hp).2.1, (h.2.2 p hp).2.2⟩⟩

theorem cacheOk_fields {A : List Nat} {s t : PState} (h : CacheOk A s)
    (h1 : t.delivered = s.delivered) (h2 : t.hash_data = s.hash_data) : CacheOk A t := by
  unfold CacheOk
  rw [h1, h2]
  exact h

theorem slotsOk_fields {s t : PState} (hS : SlotsOk s)
    (h1 : t.segmentFetchers = s.segmentFetchers) (h2 : t.nextSegmentNo = s.nextSegmentNo) :
    SlotsOk t := by
  unfold SlotsOk
  rw [h1, h2]
  exact hS

theorem slotsOk_cancel (s : PState) : SlotsOk (cancelPipeline s) := by
  constructor
  · exact List.nodup_nil
  · intro x hx
    cases hx

theorem activeSegs_cancelSlotsAbove (k : Nat) (l : List Slot) :
    activeSegs (cancelSlotsAbove k l) = activeSegs l := by
  induction l with
  | nil => rfl
  | cons p rest ih =>
    obtain ⟨p1, p2⟩ := p
    cases p1 with
    | none =>
      simp only [cancelSlotsAbove, List.map_cons] at ih ⊢
      simp only [activeSegs]
      exact ih
    | some g =>
      by_cases hgt : p2 > k
      · simp only [cancelSlotsAbove, List.map_cons, hgt, if_true] at ih ⊢
        simp only [activeSegs]
        rw [ih]
      · simp only [cancelSlotsAbove, List.map_cons, hgt, if_false] at ih ⊢
        simp only [activeSegs]
        rw [ih]

theorem activeSegs_finalScan (last : Nat) (l : List Slot) :
    activeSegs (finalScan last l).1 = activeSegs l := by
  induction l with
  | nil => rfl
  | cons p rest ih =>
    obtain ⟨p1, p2⟩ := p
    cases p1 with
    | none =>
      simp only [finalScan, activeSegs]
      exact ih
    | some g =>
      by_cases hgt : p2 > last
      · simp only [finalScan, hgt, if_true, activeSegs]
        rw [ih]
      · by_cases herr : g.hasError = true
        · simp only [finalScan, hgt, if_false, herr, if_true]
        · simp only [finalScan, hgt, if_false, herr, Bool.false_eq_true, activeSegs]
          rw [ih]

theorem activeSegs_set_subset (g : FetchStatus) (c : Nat) :
    ∀ (l : List Slot) (pn : Nat) (x : Nat),
      x ∈ activeSegs (l.set pn (some g, c)) → x ∈ activeSegs l ∨ x = c := by
  intro l
  induction l with
  | nil =>
    intro pn x hx
    simp [List.set] at hx
    cases hx
  | cons p rest ih =>
    intro pn x hx
    cases pn with
    | zero =>
      simp only [List.set, activeSegs] at hx
      rw [List.mem_cons] at hx
      rcases hx with hx | hx
      · exact Or.inr hx
      · obtain ⟨p1, p2⟩ := p
        cases p1 with
        | none =>
          left
          simp only [activeSegs]
          exact hx
        | some f =>
          left
          simp only [activeSegs]
          exact List.mem_cons_of_mem _ hx
    | succ k =>
      simp only [List.set] at hx
      obtain ⟨p1, p2⟩ := p
      cases p1 with
      | none =>
        simp only [activeSegs] at hx ⊢
        exact ih k x hx
      | some f =>
        simp only [activeSegs] at hx ⊢
        rw [List.mem_cons] at hx
        rcases hx with hx | hx
        · left
          rw [List.mem_cons]
          exact Or.inl hx
        · rcases ih k x hx with h1 | h1
          · left
            rw [List.mem_cons]
            exact Or.inr h1
          · exact Or.inr h1

theorem activeSegs_set_ok (g : FetchStatus) (c : Nat) :
    ∀ (l : List Slot) (pn : Nat),
      (activeSegs l).Nodup → (∀ x ∈ activeSegs l, x < c) →
      (activeSegs (l.set pn (some g, c))).Nodup
      ∧ ∀ x ∈ activeSegs (l.set pn (some g, c)), x < c + 1 := by
  intro l
  induction l with
  | nil =>
    intro pn _ _
    constructor
    · simp [List.set, activeSegs]
    · intro x hx
      simp [List.set, activeSegs] at hx
  | cons p rest ih =>
    intro pn hnd hlt
    cases pn with
    | zero =>
      have hrest_nd : (activeSegs rest).Nodup := by
        obtain ⟨p1, p2⟩ := p
        cases p1 with
        | none => simpa [activeSegs] using hnd
        | some f =>
          simp only [activeSegs] at hnd
          exact hnd.of_cons
      have hrest_lt : ∀ x ∈ activeSegs rest, x < c := by
        intro x hx
        apply hlt
        obtain ⟨p1, p2⟩ := p
        cases p1 with
        | none => simpa [activeSegs] using hx
        | some f =>
          simp only [activeSegs]
          exact List.mem_cons_of_mem _ hx
      constructor
      · simp only [List.set, activeSegs]
        rw [List.nodup_cons]
        refine ⟨?_, hrest_nd⟩
        intro hc
        exact absurd rfl (Nat.ne_of_lt (hrest_lt c hc)).symm
      · intro x hx
        simp only [List.set, activeSegs] at hx
        rw [List.mem_cons] at hx
        rcases hx with hx | hx
        · omega
        · have := hrest_lt x hx
          omega
    | succ k =>
      obtain ⟨p1, p2⟩ := p
      cases p1 with
      | none =>
        simp only [activeSegs] at hnd hlt
        have := ih k hnd hlt
        constructor
        · simp only [List.set, activeSegs]
          exact this.1
        · intro x hx
          simp only [List.set, activeSegs] at hx
          exact this.2 x hx
      | some f =>
        simp only [activeSegs] at hnd hlt
        rw [List.nodup_cons] at hnd
        have hlt' : ∀ x ∈ activeSegs rest, x < c := fun x hx =>
          hlt x (List.mem_cons_of_mem _ hx)
        have := ih k hnd.2 hlt'
        constructor
        · simp only [List.set, activeSegs]
          rw [List.nodup_cons]
          refine ⟨?_, this.1⟩
          intro hc
          rcases activeSegs_set_subset g c rest k p2 hc with h1 | h1
          · exact hnd.1 h1
          · have := hlt p2 (List.mem_cons_self _ _)
            omega
        · intro x hx
          simp only [List.set, activeSegs] at hx
          rw [List.mem_cons] at hx
          rcases hx with hx | hx
          · have := hlt p2 (List.mem_cons_self _ _)
            omega
          · exact this.2 x hx

theorem slotsOk_stageTail (t : PState) (pipeNo : Nat) (hS : SlotsOk t) :
    SlotsOk (stageTail t pipeNo).1 := by
  rcases stageTail_cases t pipeNo with h | h | ⟨_, h⟩ | ⟨_, h⟩ <;> rw [h]
  · exact hS
  · exact hS
  · exact slotsOk_cancel t
  · have := activeSegs_set_ok FetchStatus.running t.nextSegmentNo t.segmentFetchers pipeNo
      hS.1 hS.2
    exact this

theorem cacheOk_stageTail {A : List Nat} (t : PState) (pipeNo : Nat) (hC : CacheOk A t) :
    CacheOk A (stageTail t pipeNo).1 := by
  rcases stageTail_cases t pipeNo with h | h | ⟨_, h⟩ | ⟨_, h⟩ <;> rw [h] <;>
    exact cacheOk_fields hC rfl rfl

theorem stageA_cacheOk {arrived : List Nat} {s s1 : PState} {d : DataPkt} {e1 : List Event}
    (h : stageA s d = .next s1 e1) (hC : CacheOk arrived s) : CacheOk arrived s1 := by
  rcases stageA_cases s d with hc | hc | ⟨hc, _⟩ | ⟨cData, hl, hc⟩ <;> rw [hc] at h
  · cases h
  · cases h
  · injection h with h1 _
    rw [← h1]
    exact cacheOk_fields hC rfl rfl
  · injection h with h1 _
    rw [← h1]
    obtain ⟨hp1, hp2, hp3⟩ := hC.2.2 (d.segmentNo + 1, cData) (alookup_mem hl)
    refine ⟨?_, ?_, ?_⟩
    · show (s.delivered ++ [cData.segmentNo]).Nodup
      rw [hp1]
      exact nodup_snoc hC.1 hp3
    · intro x hx
      have hx2 : x ∈ s.delivered ++ [cData.segmentNo] := hx
      rw [List.mem_append, List.mem_singleton] at hx2
      rcases hx2 with hx2 | hx2
      · exact hC.2.1 x hx2
      · rw [hx2, hp1]
        exact hp2
    · intro p hp
      have hp' : p ∈ aerase s.hash_data (d.segmentNo + 1) := hp
      obtain ⟨hpm, hpk⟩ := mem_aerase hp'
      obtain ⟨q1, q2, q3⟩ := hC.2.2 p hpm
      refine ⟨q1, q2, ?_⟩
      intro hcon
      have hcon2 : p.1 ∈ s.delivered ++ [cData.segmentNo] := hcon
      rw [List.mem_append, List.mem_singleton] at hcon2
      rcases hcon2 with hcon2 | hcon2
      · exact q3 hcon2
      · rw [hp1] at hcon2
        exact hpk hcon2

theorem stageC_cacheOk {arrived : List Nat} {s1 s2 : PState} {d : DataPkt} {e2 : List Event}
    (h : stageC s1 d = .next s2 e2) (hC : CacheOk arrived s1)
    (hfresh : d.segmentNo ∉ arrived) :
    CacheOk (arrived ++ [d.segmentNo]) s2 := by
  have hArr : ∀ x ∈ arrived, x ∈ arrived ++ [d.segmentNo] := by
    intro x hx
    rw [List.mem_append]
    exact Or.inl hx
  have hndel : d.segmentNo ∉ s1.delivered := fun hcon => hfresh (hC.2.1 _ hcon)
  rcases stageC_cases s1 d with ⟨h0, hc⟩ | ⟨hn, hl, hc⟩ | ⟨hn, hc⟩ | ⟨hn, hc⟩ <;> rw [hc] at h
  · injection h with h1 _
    rw [← h1]
    refine ⟨?_, ?_, ?_⟩
    · show (s1.delivered ++ [d.segmentNo]).Nodup
      exact nodup_snoc hC.1 hndel
    · intro x hx
      have hx2 : x ∈ s1.delivered ++ [d.segmentNo] := hx
      rw [List.mem_append, List.mem_singleton] at hx2
      rw [List.mem_append, List.mem_singleton]
      rcases hx2 with hx2 | hx2
      · exact Or.inl (hC.2.1 x hx2)
      · exact Or.inr hx2
    · intro p hp
      obtain ⟨q1, q2, q3⟩ := hC.2.2 p hp
      refine ⟨q1, hArr _ q2, ?_⟩
      intro hcon
      have hcon2 : p.1 ∈ s1.delivered ++ [d.segmentNo] := hcon
      rw [List.mem_append, List.mem_singleton] at hcon2
      rcases hcon2 with hcon2 | hcon2
      · exact q3 hcon2
      · rw [hcon2] at q2
        exact hfresh q2
  · injection h with h1 _
    rw [← h1]
    refine ⟨hC.1, fun x hx => hArr x (hC.2.1 x hx), ?_⟩
    intro p hp
    have hp' : p ∈ mapInsertD s1.hash_data d.segmentNo d := hp
    rcases mem_mapInsertD hp' with hpm | hpe
    · obtain ⟨q1, q2, q3⟩ := hC.2.2 p hpm
      exact ⟨q1, hArr _ q2, q3⟩
    · rw [hpe]
      refine ⟨rfl, ?_, hndel⟩
      rw [List.mem_append, List.mem_singleton]
      exact Or.inr rfl
  · cases h
  · injection h with h1 _
    rw [← h1]
    refine ⟨?_, ?_, ?_⟩
    · show (s1.delivered ++ [d.segmentNo]).Nodup
      exact nodup_snoc hC.1 hndel
    · intro x hx
      have hx2 : x ∈ s1.delivered ++ [d.segmentNo] := hx
      rw [List.mem_append, List.mem_singleton] at hx2
      rw [List.mem_append, List.mem_singleton]
      rcases hx2 with hx2 | hx2
      · exact Or.inl (hC.2.1 x hx2)
      · exact Or.inr hx2
    · intro p hp
      have hp' : p ∈ aerase s1.hash_data (d.segmentNo - 1) := hp
      obtain ⟨hpm, hpk⟩ := mem_aerase hp'
      obtain ⟨q1, q2, q3⟩ := hC.2.2 p hpm
      refine ⟨q1, hArr _ q2, ?_⟩
      intro hcon
      have hcon2 : p.1 ∈ s1.delivered ++ [d.segmentNo] := hcon
      rw [List.mem_append, List.mem_singleton] at hcon2
      rcases hcon2 with hcon2 | hcon2
      · exact q3 hcon2
      · rw [hcon2] at q2
        exact hfresh q2

theorem stageFinal_c9 {A : List Nat} {s2 s3 : PState} {d : DataPkt} {e3 : List Event}
    (h : stageFinal s2 d = .next s3 e3) (hS : SlotsOk s2) (hC : CacheOk A s2) :
    SlotsOk s3 ∧ CacheOk A s3 := by
  rcases stageFinal_cases s2 d with hc | ⟨last, errSeg, _, _, hc⟩ | ⟨last, _, _, _, hc⟩ <;>
      rw [hc] at h
  · injection h with h1 _
    rw [← h1]
    exact ⟨hS, hC⟩
  · cases h
  · injection h with h1 _
    rw [← h1]
    refine ⟨⟨?_, ?_⟩, cacheOk_fields hC rfl rfl⟩
    · show (activeSegs (finalScan last s2.segmentFetchers).1).Nodup
      rw [activeSegs_finalScan]
      exact hS.1
    · intro x hx
      have hx2 : x ∈ activeSegs (finalScan last s2.segmentFetchers).1 := hx
      rw [activeSegs_finalScan] at hx2
      exact hS.2 x hx2

theorem stageFinal_fatal_c9 {A : List Nat} {s2 s3 : PState} {d : DataPkt} {e3 : List Event}
    (h : stageFinal s2 d = .fatal s3 e3) (hC : CacheOk A s2) :
    SlotsOk s3 ∧ CacheOk A s3 := by
  rcases stageFinal_cases s2 d with hc | ⟨last, errSeg, _, _, hc⟩ | ⟨last, _, _, _, hc⟩ <;>
      rw [hc] at h
  · cases h
  · injection h with h1 _
    rw [← h1]
    refine ⟨⟨List.nodup_nil, ?_⟩, cacheOk_fields hC rfl rfl⟩
    intro x hx
    simp [activeSegs] at hx
  · cases h

theorem step_c9_arrive {arrived : List Nat} {s : PState} {d : DataPkt} {pipeNo : Nat}
    {s' : PState} {evs : List Event}
    (h : handleData s d pipeNo = some (s', evs))
    (hS : SlotsOk s) (hC : CacheOk arrived s) (hfresh : d.segmentNo ∉ arrived) :
    SlotsOk s' ∧ CacheOk (arrived ++ [d.segmentNo]) s' := by
  have hArr : ∀ x ∈ arrived, x ∈ arrived ++ [d.segmentNo] := by
    intro x hx
    rw [List.mem_append]
    exact Or.inl hx
  by_cases hstop : s.stopping = true
  · rw [handleData_stopped s d pipeNo hstop, Option.some.injEq, Prod.mk.injEq] at h
    rw [← h.1]
    exact ⟨hS, cacheOk_mono hC hArr⟩
  · rw [Bool.not_eq_true] at hstop
    cases hA : stageA s d with
    | abnormal =>
      simp only [handleData, hstop, Bool.false_eq_true, if_false, hA] at h
      cases h
    | fatal s1 e1 =>
      simp only [handleData, hstop, Bool.false_eq_true, if_false, hA,
        Option.some.injEq, Prod.mk.injEq] at h
      rw [← h.1, stageA_fatal_state hA]
      exact ⟨slotsOk_cancel s, cacheOk_mono (cacheOk_fields hC rfl rfl) hArr⟩
    | next s1 e1 =>
      have hF1 := stageA_next_frame hA
      have hS1 : SlotsOk s1 := slotsOk_fields hS hF1.1 hF1.2.2.2.2.1
      have hC1 : CacheOk arrived s1 := stageA_cacheOk hA hC
      cases hCr : stageC s1 d with
      | abnormal =>
        simp only [handleData, hstop, Bool.false_eq_true, if_false, hA, hCr] at h
        cases h
      | fatal s2 e2 =>
        simp only [handleData, hstop, Bool.false_eq_true, if_false, hA, hCr,
          Option.some.injEq, Prod.mk.injEq] at h
        rw [← h.1, stageC_fatal_state hCr]
        exact ⟨slotsOk_cancel s1, cacheOk_mono (cacheOk_fields hC1 rfl rfl) hArr⟩
      | next s2 e2 =>
        have hF2 := stageC_next_frame hCr
        have hS2 : SlotsOk s2 := slotsOk_fields hS1 hF2.1 hF2.2.2.2.2.1
        have hC2 : CacheOk (arrived ++ [d.segmentNo]) s2 := stageC_cacheOk hCr hC1 hfresh
        cases hFi : stageFinal s2 d with
        | abnormal =>
          rcases stageFinal_cases s2 d with hc | ⟨a, b, _, _, hc⟩ | ⟨a, _, _, _, hc⟩ <;>
            rw [hc] at hFi <;> cases hFi
        | fatal s3 e3 =>
          simp only [handleData, hstop, Bool.false_eq_true, if_false, hA, hCr, hFi,
            Option.some.injEq, Prod.mk.injEq] at h
          rw [← h.1]
          exact stageFinal_fatal_c9 hFi hC2
        | next s3 e3 =>
          simp only [handleData, hstop, Bool.false_eq_true, if_false, hA, hCr, hFi,
            Option.some.injEq, Prod.mk.injEq] at h
          rw [← h.1]
          obtain ⟨hS3, hC3⟩ := stageFinal_c9 hFi hS2 hC2
          exact ⟨slotsOk_stageTail s3 pipeNo hS3, cacheOk_stageTail s3 pipeNo hC3⟩

theorem step_c9_fail {arrived : List Nat} (s : PState) (reason : String) (pipeNo : Nat)
    (hS : SlotsOk s) (hC : CacheOk arrived s) :
    SlotsOk (handleFail s reason pipeNo).1
    ∧ CacheOk arrived (handleFail s reason pipeNo).1 := by
  rcases handleFail_cases s reason pipeNo with hc | ⟨r, hc⟩ | ⟨_, hc⟩ <;> rw [hc]
  · exact ⟨hS, hC⟩
  · exact ⟨slotsOk_cancel s, cacheOk_fields hC rfl rfl⟩
  · refine ⟨⟨?_, ?_⟩, cacheOk_fields hC rfl rfl⟩
    · show (activeSegs (cancelSlotsAbove (slotSegAt s pipeNo) s.segmentFetchers)).Nodup
      rw [activeSegs_cancelSlotsAbove]
      exact hS.1
    · intro x hx
      have hx2 : x ∈ activeSegs (cancelSlotsAbove (slotSegAt s pipeNo) s.segmentFetchers) := hx
      rw [activeSegs_cancelSlotsAbove] at hx2
      exact hS.2 x hx2

theorem run_c9 (ops : List Op) : ∀ (arrived : List Nat) (s s' : PState) (evs : List Event),
    runOps s ops = some (s', evs) → SlotsOk s → CacheOk arrived s →
    (arrived ++ arrivalSegs ops).Nodup →
    SlotsOk s' ∧ CacheOk (arrived ++ arrivalSegs ops) s' := by
  induction ops with
  | nil =>
    intro arrived s s' evs h hS hC hnd
    simp only [runOps, Option.some.injEq, Prod.mk.injEq] at h
    rw [← h.1]
    simp only [arrivalSegs, List.append_nil]
    exact ⟨hS, hC⟩
  | cons op ops ih =>
    intro arrived s s' evs h hS hC hnd
    simp only [runOps] at h
    cases h1 : stepOp s op with
    | none =>
      rw [h1] at h
      cases h
    | some r =>
      obtain ⟨s1, e1⟩ := r
      rw [h1] at h
      simp only [Option.some_bind] at h
      cases h2 : runOps s1 ops with
      | none =>
        rw [h2] at h
        cases h
      | some r2 =>
        obtain ⟨s2, e2⟩ := r2
        rw [h2] at h
        simp only [Option.map_some', Option.some.injEq, Prod.mk.injEq] at h
        rw [← h.1]
        cases op with
        | arrive d pipeNo =>
          have hnd' : (arrived ++ d.segmentNo :: arrivalSegs ops).Nodup := by
            simpa only [arrivalSegs] using hnd
          have hfresh : d.segmentNo ∉ arrived := by
            have hdisj := (List.nodup_append.mp hnd').2.2
            intro hcon
            exact hdisj hcon (List.mem_cons_self _ _)
          simp only [stepOp] at h1
          obtain ⟨hSa, hCa⟩ := step_c9_arrive h1 hS hC hfresh
          have hnd2 : ((arrived ++ [d.segmentNo]) ++ arrivalSegs ops).Nodup := by
            rw [List.append_assoc, List.singleton_append]
            exact hnd'
          have hres := ih (arrived ++ [d.segmentNo]) s1 s2 e2 h2 hSa hCa hnd2
          refine ⟨hres.1, ?_⟩
          simp only [arrivalSegs]
          rw [← List.singleton_append, ← List.append_assoc]
          exact hres.2
        | fail reason pipeNo =>
          simp only [stepOp, Option.some.injEq] at h1
          have hfl := step_c9_fail s reason pipeNo hS hC
          rw [h1] at hfl
          have hres := ih arrived s1 s2 e2 h2 hfl.1 hfl.2
            (by simpa only [arrivalSegs] using hnd)
          simpa only [arrivalSegs] using hres
        | cancelOp =>
          simp only [stepOp, Option.some.injEq, Prod.mk.injEq] at h1
          have hS1 : SlotsOk s1 := by
            rw [← h1.1]
            exact slotsOk_cancel s
          have hC1 : CacheOk arrived s1 := by
            rw [← h1.1]
            exact cacheOk_fields hC rfl rfl
          have hres := ih arrived s1 s2 e2 h2 hS1 hC1
            (by simpa only [arrivalSegs] using hnd)
          simpa only [arrivalSegs] using hres

theorem fetchNextSegment_slotsOk (s : PState) (pipeNo : Nat) (hS : SlotsOk s) :
    SlotsOk (fetchNextSegment s pipeNo).1 := by
  unfold fetchNextSegment onFailure
  split
  · exact hS
  · split
    · exact slotsOk_cancel s
    · split
      · exact hS
      · exact activeSegs_set_ok FetchStatus.running s.nextSegmentNo s.segmentFetchers pipeNo
          hS.1 hS.2

theorem fetchNextSegment_cache_fields (s : PState) (pipeNo : Nat) :
    (fetchNextSegment s pipeNo).1.delivered = s.delivered
    ∧ (fetchNextSegment s pipeNo).1.hash_data = s.hash_data := by
  unfold fetchNextSegment onFailure cancelPipeline
  split
  · exact ⟨rfl, rfl⟩
  · split
    · exact ⟨rfl, rfl⟩
    · split
      · exact ⟨rfl, rfl⟩
      · exact ⟨rfl, rfl⟩

theorem doRunLoop_slotsOk (r : Nat) : ∀ (s : PState) (pipeNo : Nat), SlotsOk s →
    SlotsOk (doRunLoop s pipeNo r) := by
  induction r with
  | zero =>
    intro s pipeNo hS
    exact hS
  | succ k ih =>
    intro s pipeNo hS
    simp only [doRunLoop]
    split
    · exact ih _ _ (fetchNextSegment_slotsOk s pipeNo hS)
    · exact fetchNextSegment_slotsOk s pipeNo hS

theorem doRunLoop_cache_fields (r : Nat) : ∀ (s : PState) (pipeNo : Nat),
    (doRunLoop s pipeNo r).delivered = s.delivered
    ∧ (doRunLoop s pipeNo r).hash_data = s.hash_data := by
  induction r with
  | zero =>
    intro s pipeNo
    exact ⟨rfl, rfl⟩
  | succ k ih =>
    intro s pipeNo
    simp only [doRunLoop]
    split
    · have ha := ih (fetchNextSegment s pipeNo).1 (pipeNo + 1)
      have hb := fetchNextSegment_cache_fields s pipeNo
      exact ⟨ha.1.trans hb.1, ha.2.trans hb.2⟩
    · exact fetchNextSegment_cache_fields s pipeNo

theorem activeSegs_replicate (w : Nat) :
    activeSegs (List.replicate w ((none : Option FetchStatus), 0)) = [] := by
  induction w with
  | zero => rfl
  | succ k ih =>
    rw [List.replicate_succ]
    simp only [activeSegs]
    exact ih

theorem pipelineStart_slotsOk (w : Nat) : SlotsOk (pipelineStart w) := by
  apply doRunLoop_slotsOk
  constructor
  · show (activeSegs (List.replicate w (none, 0))).Nodup
    rw [activeSegs_replicate]
    exact List.nodup_nil
  · intro x hx
    have hx2 : x ∈ activeSegs (List.replicate w (none, 0)) := hx
    rw [activeSegs_replicate] at hx2
    cases hx2

theorem pipelineStart_cacheOk (w : Nat) : CacheOk [] (pipelineStart w) := by
  obtain ⟨h1, h2⟩ := doRunLoop_cache_fields w (initState w) 0
  unfold pipelineStart
  refine ⟨?_, ?_, ?_⟩
  · rw [h1]
    exact List.nodup_nil
  · intro x hx
    rw [h1] at hx
    simp [initState] at hx
  · intro p hp
    rw [h2] at hp
    simp [initState] at hp

/-- C9: in every run of serialized completions from a started pipeline
in which each arriving response carries a distinct segment number (the
Fetch Task contract: one fetcher per requested number, each resolving at
most once), no segment number is delivered twice, and the segment
numbers bound to occupied window slots remain pairwise distinct (no
number is requested by two slots simultaneously). -/
theorem c9_at_most_once (w : Nat) (ops : List Op) (s' : PState) (evs : List Event)
    (hnd : (arrivalSegs ops).Nodup)
    (hrun : runOps (pipelineStart w) ops = some (s', evs)) :
    s'.delivered.Nodup ∧ (activeSegs s'.segmentFetchers).Nodup := by
  have hres := run_c9 ops [] (pipelineStart w) s' evs hrun (pipelineStart_slotsOk w)
    (pipelineStart_cacheOk w) (by simpa using hnd)
  exact ⟨hres.2.1, hres.1.1⟩

/-- Operations for the C9 witness: three out-of-order arrivals with
distinct segment numbers. -/
def c9wops : List Op :=
  [Op.arrive ⟨2, [⟨tlvSignatureValue, [22]⟩], [21], none⟩ 2,
   Op.arrive ⟨0, [⟨tlvSignatureValue, [20]⟩], [19], none⟩ 0]

/-- Witness for C9: the concrete out-of-order run ends with a
duplicate-free delivery log and pairwise distinct slot bindings. -/
theorem c9_at_most_once_witness :
    (runOps (pipelineStart 3) c9wops).map
        (fun r => decide r.1.delivered.Nodup && decide (activeSegs r.1.segmentFetchers).Nodup)
      = some true := by
  cases hres : runOps (pipelineStart 3) c9wops with
  | none =>
    have hsome : (runOps (pipelineStart 3) c9wops).isSome = true := by decide
    rw [hres] at hsome
    cases hsome
  | some r =>
    obtain ⟨hd, ha⟩ := c9_at_most_once 3 c9wops r.1 r.2 (by decide) (by rw [hres])
    rw [Option.map_some']
    rw [decide_eq_true hd, decide_eq_true ha]
    rfl

/- ### C7: a commitment mismatch is unconditionally fatal, on both paths -/

/-- Event trace of stage A's fatal branch, paired with its state. -/
theorem stageA_fatal_full {s : PState} {d : DataPkt} {s1 : PState} {e1 : List Event}
    (h : stageA s d = .fatal s1 e1) :
    s1 = cancelPipeline s ∧ e1 = [Event.error "Failure hash key error"] := by
  rcases stageA_cases s d with hc | hc | ⟨hc, _⟩ | ⟨cData, _, hc⟩ <;> rw [hc] at h
  · cases h
  · injection h with h1 h2
    exact ⟨h1.symm, h2.symm⟩
  · cases h
  · cases h

/-- C7: for every segment `N > 0`, a mismatch against the predecessor's
recorded commitment is unconditionally fatal, on both verification
paths.  First conjunct, the direct path (lines 156-157), with no
assumption on the pending-verification cache: whenever the predecessor's
recorded commitment does not match the response's signature value and
the handler runs to completion, the call ends with the integrity error
as its last event — preceded at most by the delivery of a cached
successor, which line 139 emits before the comparison runs — the
mismatching segment itself is never delivered, the pipeline stops, and
every later completion callback is inert, so zero further deliveries
occur after the error.  (The key-coherence premise on the cache holds in
every reachable state: entries are inserted at line 155 under the
packet's own segment number; it is the first component of `CacheOk`,
shown invariant by `run_c9` and `pipelineStart_cacheOk`.)  Second
conjunct, the pending-cache resolution path (lines 135-136): a mismatch
while resolving a cached successor aborts immediately with the integrity
error as the only event, nothing is delivered, and the pipeline is
likewise stopped and inert. -/
theorem c7_mismatch_is_fatal :
    (∀ (s : PState) (d : DataPkt) (pipeNo : Nat) (hb : ByteStr) (s' : PState)
        (evs : List Event),
      s.stopping = false →
      (∀ p ∈ s.hash_data, p.2.segmentNo = p.1) →
      d.segmentNo ≠ 0 →
      alookup s.hash_map (d.segmentNo - 1) = some hb →
      directMismatch hb d = true →
      handleData s d pipeNo = some (s', evs) →
      (evs = [Event.error "Failure hash key error"]
        ∨ evs = [Event.deliver (d.segmentNo + 1), Event.error "Failure hash key error"])
      ∧ s'.stopping = true
      ∧ (d.segmentNo ∈ s'.delivered → d.segmentNo ∈ s.delivered)
      ∧ (∀ d' pipeNo', handleData s' d' pipeNo' = some (s', []))
      ∧ (∀ reason pipeNo', handleFail s' reason pipeNo' = (s', [])))
    ∧ (∀ (s : PState) (d : DataPkt) (pipeNo : Nat) (cData : DataPkt)
        (hashBlock curEmbed : ByteStr),
      s.stopping = false →
      alookup s.hash_data (d.segmentNo + 1) = some cData →
      contentSigValue? cData.contentElements = some hashBlock →
      contentSigValue? d.contentElements = some curEmbed →
      pendingMismatch curEmbed hashBlock d.signatureValue.length = true →
      handleData s d pipeNo =
        some (cancelPipeline s, [Event.error "Failure hash key error"])
      ∧ (cancelPipeline s).delivered = s.delivered
      ∧ (∀ d' pipeNo', handleData (cancelPipeline s) d' pipeNo' =
          some (cancelPipeline s, []))
      ∧ (∀ reason pipeNo', handleFail (cancelPipeline s) reason pipeNo' =
          (cancelPipeline s, []))) := by
  constructor
  · intro s d pipeNo hb s' evs hstop hcoh hn hhb hmm hrun
    rcases stageA_cases s d with hc | hc | ⟨hc, hl⟩ | ⟨cData, hl, hc⟩
    · simp only [handleData, hstop, Bool.false_eq_true, if_false, hc] at hrun
      cases hrun
    · simp only [handleData, hstop, Bool.false_eq_true, if_false, hc,
        Option.some.injEq, Prod.mk.injEq] at hrun
      obtain ⟨hs', hevs⟩ := hrun
      rw [← hs']
      refine ⟨Or.inl hevs.symm, rfl, fun hx => hx, ?_, ?_⟩
      · intro d' pn'
        exact handleData_stopped _ _ _ rfl
      · intro r pn'
        exact handleFail_stopped _ _ _ rfl
    · have hlook : alookup (recordCommitments s.hash_map d.segmentNo d.contentElements)
          (d.segmentNo - 1) = some hb := by
        rw [alookup_recordCommitments_ne _ _ _ _ (by omega)]
        exact hhb
      simp only [handleData, hstop, Bool.false_eq_true, if_false, hc, stageC, ne_eq, hn,
        not_false_eq_true, if_true, ite_true, hlook, hmm, onFailure, List.nil_append,
        Option.some.injEq, Prod.mk.injEq] at hrun
      obtain ⟨hs', hevs⟩ := hrun
      rw [← hs']
      refine ⟨Or.inl hevs.symm, rfl, fun hx => hx, ?_, ?_⟩
      · intro d' pn'
        exact handleData_stopped _ _ _ rfl
      · intro r pn'
        exact handleFail_stopped _ _ _ rfl
    · have hseg : cData.segmentNo = d.segmentNo + 1 :=
        hcoh (d.segmentNo + 1, cData) (alookup_mem hl)
      simp only [handleData, hstop, Bool.false_eq_true, if_false, hc, stageC, ne_eq, hn,
        not_false_eq_true, if_true, ite_true, hhb, hmm, onFailure, List.nil_append,
        List.cons_append, List.singleton_append, Option.some.injEq, Prod.mk.injEq] at hrun
      obtain ⟨hs', hevs⟩ := hrun
      rw [← hs']
      refine ⟨Or.inr (by rw [← hevs, hseg]), rfl, ?_, ?_, ?_⟩
      · intro hx
        have hx2 : d.segmentNo ∈ s.delivered ++ [cData.segmentNo] := hx
        rw [List.mem_append, List.mem_singleton] at hx2
        rcases hx2 with hx2 | hx2
        · exact hx2
        · rw [hseg] at hx2
          omega
      · intro d' pn'
        exact handleData_stopped _ _ _ rfl
      · intro r pn'
        exact handleFail_stopped _ _ _ rfl
  · intro s d pipeNo cData hashBlock curEmbed hstop hl hc1 hc2 hmm
    have hA : stageA s d =
        .fatal (cancelPipeline s) [Event.error "Failure hash key error"] := by
      simp only [stageA, hl, hc1, hc2, hmm, if_true, ite_true, onFailure]
    refine ⟨?_, rfl, ?_, ?_⟩
    · simp only [handleData, hstop, Bool.false_eq_true, if_false, hA]
    · intro d' pipeNo'
      exact handleData_stopped _ _ _ rfl
    · intro reason pipeNo'
      exact handleFail_stopped _ _ _ rfl

/-- State for the C7 witness, direct path: segment 0's commitment `[5]`
recorded, and segment 2's response already held in the pending cache. -/
def c7wstate : PState :=
  { segmentFetchers := [(some .running, 1)], hash_map := [(0, [5])]
    hash_data := [(2, ⟨2, [⟨tlvSignatureValue, [9]⟩], [8], none⟩)]
    hasFinalBlockId := false, lastSegmentNo := 0, hasFailure := false
    nextSegmentNo := 3, stopping := false, delivered := [0], requested := [0, 1, 2] }

/-- Response for the C7 witness, direct path: segment 1 whose embedded
value `[9]` matches the cached successor (so line 139 delivers
segment 2 first) but whose signature `[7]` mismatches the recorded
commitment `[5]`. -/
def c7wdata : DataPkt := ⟨1, [⟨tlvSignatureValue, [9]⟩], [7], none⟩

/-- State for the C7 witness, pending path: segment 5's response held in
the cache with embedded value `[3]`. -/
def c7pstate : PState :=
  { segmentFetchers := [], hash_map := []
    hash_data := [(5, ⟨5, [⟨tlvSignatureValue, [3]⟩], [2], none⟩)]
    hasFinalBlockId := false, lastSegmentNo := 0, hasFailure := false
    nextSegmentNo := 6, stopping := false, delivered := [], requested := [] }

/-- Response for the C7 witness, pending path: segment 4 whose embedded
value `[4]` does not match the cached successor's embedded value. -/
def c7pdata : DataPkt := ⟨4, [⟨tlvSignatureValue, [4]⟩], [6], none⟩

/-- Witness for C7 at both mismatch sites: the direct mismatch — with a
matching cached successor present, the case where that successor is
delivered just before the abort — stops the pipeline without ever
delivering the mismatching segment 1, and the pending-path mismatch
aborts with the integrity error as the only event. -/
theorem c7_mismatch_is_fatal_witness :
    (handleData c7wstate c7wdata 0).map
        (fun r => (r.1.stopping, decide (1 ∈ r.1.delivered))) = some (true, false)
    ∧ handleData c7pstate c7pdata 0 =
        some (cancelPipeline c7pstate, [Event.error "Failure hash key error"]) := by
  constructor
  · cases hres : handleData c7wstate c7wdata 0 with
    | none =>
      have hsome : (handleData c7wstate c7wdata 0).isSome = true := by decide
      rw [hres] at hsome
      cases hsome
    | some r =>
      obtain ⟨hevs, hstop2, hdel, habs1, habs2⟩ :=
        c7_mismatch_is_fatal.1 c7wstate c7wdata 0 [5] r.1 r.2 rfl (by decide) (by decide)
          (by decide) (by decide) (by rw [hres])
      rw [Option.map_some', hstop2]
      have hn1 : 1 ∉ r.1.delivered := by
        intro hcon
        have hmem := hdel hcon
        simp [c7wstate, c7wdata] at hmem
      rw [decide_eq_false hn1]
  · exact (c7_mismatch_is_fatal.2 c7pstate c7pdata 0
      ⟨5, [⟨tlvSignatureValue, [3]⟩], [2], none⟩ [3] [4] rfl (by decide) (by decide)
      (by decide) (by decide)).1

end NdnCatchunks
